import Mathlib

/-!
Verification of the textfree86 command-line framework (src/textfree86.py):
a shallow embedding of its argument binder (`parse_args`, `try_parse`),
its value codec (`codec.dump`, `codec.parse`), and the command-tree
dispatch (`wire.Command.parse_args`, `cli.Command.call`), together with
theorems settling the specified properties.

Conventions of the embedding:
- Python's insertion-ordered `dict` is modelled as an association list with
  unique keys (`dictLookup`, `dictInsert`, `dictPop`).
- Python exceptions are modelled by `Except PyErr`; the distinct exception
  classes that matter (`wire.BadArg`, `NameError`, `TypeError`,
  `AttributeError`) are separate constructors, because
  `wire.Command.parse_args` catches only `wire.BadArg`.
- Python values are modelled by `PyVal`.  A `float` object is identified by
  a canonical text rendering (the `float.hex` text in the codec, the `repr`
  text in the binder); binary floating point itself is outside the
  embedding, and the only float computation the binder performs — the check
  `str(float(arg)) == arg` — is modelled by the syntactic predicate
  `pyfloat_roundtrip`.
- `int(...)`/`str(...)` on integers are modelled by `pyint`/`intToStr`.
-/

set_option linter.unusedVariables false

namespace Textfree86

/-! ### Ordered dictionaries (Python `dict`) as association lists -/
/-- `d[key]` lookup: first entry whose key matches. -/
def dictLookup {α : Type} : List (String × α) → String → Option α
  | [], _ => Option.none
  | (k, v) :: rest, key => if k = key then some v else dictLookup rest key

/-- `key in d`. -/
def dictMem {α : Type} (d : List (String × α)) (key : String) : Bool :=
  (dictLookup d key).isSome

/-- `d[key] = v`: update in place when the key is present, else append. -/
def dictInsert {α : Type} : List (String × α) → String → α → List (String × α)
  | [], key, v => [(key, v)]
  | (k, w) :: rest, key, v =>
      if k = key then (k, v) :: rest else (k, w) :: dictInsert rest key v

/-- The dictionary after `d.pop(key)` (the first entry with the key removed). -/
def dictPop {α : Type} : List (String × α) → String → List (String × α)
  | [], _ => []
  | (k, v) :: rest, key => if k = key then rest else (k, v) :: dictPop rest key

/-! ### Python `str(int)` and `int(str)` -/
/-- The character of a single decimal digit (`Nat.digitChar` for `d < 10`). -/
def digitChar (d : Nat) : Char := Char.ofNat (48 + d)

/-- Decimal digits of `n`, most significant first; `fuel` bounds the
recursion (any `fuel > n` is enough). -/
def natDigitsGo : Nat → Nat → List Char
  | 0, _ => []
  | fuel + 1, n =>
      if n < 10 then [digitChar n]
      else natDigitsGo fuel (n / 10) ++ [digitChar (n % 10)]

/-- Model of Python `str` on a non-negative integer. -/
def natToStr (n : Nat) : String := ⟨natDigitsGo (n + 1) n⟩

/-- Model of Python `str` on an `int`. -/
def intToStr (i : Int) : String :=
  if i < 0 then ⟨'-' :: natDigitsGo (i.natAbs + 1) i.natAbs⟩ else natToStr i.natAbs

/-- The value of a decimal digit character, if it is one. -/
def charDigit (c : Char) : Option Nat :=
  if 48 ≤ c.toNat ∧ c.toNat ≤ 57 then some (c.toNat - 48) else Option.none

/-- ASCII whitespace as stripped by Python `int(str)`. -/
def isPyWsChar (c : Char) : Bool :=
  c.toNat = 32 || c.toNat = 9 || c.toNat = 10 || c.toNat = 13 || c.toNat = 11 || c.toNat = 12

/-- Both-ends whitespace strip. -/
def pyStrip (cs : List Char) : List Char :=
  ((cs.dropWhile isPyWsChar).reverse.dropWhile isPyWsChar).reverse

mutual

/-- Digit run of Python's base-10 `int` literal: single underscores are
allowed between digits only. `acc` is the value of the digits read so far. -/
def pyDigitsGo : Nat → List Char → Option Nat
  | acc, [] => some acc
  | acc, c :: rest =>
      if c = '_' then pyDigitsUnd acc rest
      else
        match charDigit c with
        | some d => pyDigitsGo (acc * 10 + d) rest
        | Option.none => Option.none

/-- State right after an underscore: a digit must follow. -/
def pyDigitsUnd : Nat → List Char → Option Nat
  | _, [] => Option.none
  | acc, c :: rest =>
      match charDigit c with
      | some d => pyDigitsGo (acc * 10 + d) rest
      | Option.none => Option.none

end

/-- A nonempty digit run (with inner underscores) and its value. -/
def pyDigitsVal : List Char → Option Nat
  | [] => Option.none
  | c :: rest =>
      match charDigit c with
      | some d => pyDigitsGo d rest
      | Option.none => Option.none

/-- Optional sign followed by a digit run. -/
def pySignedDigits : List Char → Option Int
  | [] => Option.none
  | c :: rest =>
      if c = '-' then (pyDigitsVal rest).map (fun n => -(n : Int))
      else if c = '+' then (pyDigitsVal rest).map (fun n => (n : Int))
      else (pyDigitsVal (c :: rest)).map (fun n => (n : Int))

/-- Model of Python `int(arg)` on a string (base 10): strip ASCII
whitespace, optional sign, then digits (with single inner underscores).
Non-ASCII digit forms are outside the model. -/
def pyint (s : String) : Option Int := pySignedDigits (pyStrip s.data)

/-- The value of a digit list under the left fold that `pyDigitsGo` computes. -/
def foldDigits (acc : Nat) (cs : List Char) : Nat :=
  cs.foldl (fun a c => a * 10 + ((charDigit c).getD 0)) acc

/-! ### The float round-trip check of `try_parse`

The binder's only float computation is the check `str(float(arg)) == arg`
(source lines 321-327 and 340-344).  A string passes exactly when it is the
shortest-`repr` rendering of some binary double; the float it then denotes
is uniquely identified by that very text, so the model carries the text
itself and replaces the check by a syntactic characterization of `repr`
output ("inf"/"nan" forms and fixed-point decimals with canonical integer
and fraction parts; the scientific-notation forms and the shortest-digits
pruning of binary doubles are not modelled, binary floating point being
outside the embedding).  No theorem below depends on the predicate's exact
extension. -/
/-- Nonempty all-digit run with no leading zero (unless it is exactly "0"). -/
def canonIntPart : List Char → Bool
  | [] => false
  | [c] => (charDigit c).isSome
  | c :: rest => (charDigit c).isSome && c ≠ '0' && rest.all (fun x => (charDigit x).isSome)

/-- Nonempty all-digit run with no trailing zero (unless it is exactly "0"). -/
def canonFracPart (cs : List Char) : Bool :=
  canonIntPart cs.reverse

/-- Split at the single '.' of a fixed-point decimal. -/
def splitDot : List Char → Option (List Char × List Char)
  | [] => Option.none
  | '.' :: rest => if rest.contains '.' then Option.none else some ([], rest)
  | c :: rest => (splitDot rest).map (fun p => (c :: p.1, p.2))

/-- Model of the check `str(float(arg)) == arg`. -/
def pyfloat_roundtrip (s : String) : Bool :=
  let body : List Char → Bool → Bool := fun cs neg =>
    if cs = "inf".data then true
    else if cs = "nan".data then !neg
    else
      match splitDot cs with
      | some (ip, fp) => canonIntPart ip && canonFracPart fp
      | Option.none => false
  match s.data with
  | '-' :: rest => body rest true
  | cs => body cs false

/-! ### Python values and exceptions -/
/-- Exceptions of the modelled program.  `wire.Command.parse_args` catches
only `badArg` (`except wire.BadArg`); the other classes propagate. -/
inductive PyErr where
  | badArg (msg : String)
  | nameError (msg : String)
  | typeError (msg : String)
  | attributeError (msg : String)
  | recursionError
deriving Repr, DecidableEq

/-- The codec's data model plus the objects the binder produces.  A `float`
is identified by a canonical text rendering (`float.hex` text in the codec,
`repr` text in the binder).  `stream` models an `io.BytesIO` object by its
contents at creation.  A registered-class instance (`wire.FileHandle` and
friends) is a `tagged` value whose fields model the instance `__dict__` in
attribute-assignment order. -/
inductive PyVal where
  | none
  | bool (b : Bool)
  | int (i : Int)
  | float (text : String)
  | str (s : String)
  | bytes (bs : List Nat)
  | list (xs : List PyVal)
  | record (fields : List (PyVal × PyVal))
  | tagged (tag : String) (fields : List (String × PyVal))
  | stream (contents : List Nat)
deriving Repr

/-- The `wire.FileHandle(arg, mode)` object built by `try_parse`
(`buf = None`). -/
def mkFileHandle (name : Option PyVal) (mode : String) : PyVal :=
  .tagged "FileHandle" [("name", name.getD .none), ("mode", .str mode), ("buf", .none)]

/-- A `None`-or-`str` argument as a value. -/
def optStrVal : Option String → PyVal
  | Option.none => .none
  | some s => .str s

/-- The float-or-raw fallback of the scalar conversion. -/
def scalarFloat (s : String) : PyVal :=
  if pyfloat_roundtrip s then .float s else .str s

/-- The scalar conversion of `try_parse` (source lines 334-345): integer
round-trip, else float round-trip, else the raw token. -/
def scalarConv (s : String) : PyVal :=
  match pyint s with
  | some i => if intToStr i = s then .int i else scalarFloat s
  | Option.none => scalarFloat s

/-- Model of `try_parse(name, arg, argtype)` (source lines 305-347).
`arg` is `Option String` because the stale-variable bug at line 208 can
feed `None` into it; each branch then does what the Python operations do
on `None` (string branches return it unchanged, `int(None)`/`float(None)`
raise a `TypeError` that the bare `except` swallows, `None == "true"` is
false). -/
def try_parse (name : String) (arg : Option String) (argtype : Option String) :
    Except PyErr PyVal :=
  if argtype = some "str" ∨ argtype = some "string" then
    .ok (optStrVal arg)
  else if argtype = some "infile" then
    .ok (mkFileHandle (some (optStrVal arg)) "read")
  else if argtype = some "outfile" then
    .ok (mkFileHandle (some (optStrVal arg)) "write")
  else if argtype = some "int" ∨ argtype = some "integer" then
    match arg with
    | some s =>
        (match pyint s with
         | some i =>
             if intToStr i = s then .ok (.int i)
             else .error (.badArg (name ++ " expects an integer, got " ++ s))
         | Option.none => .error (.badArg (name ++ " expects an integer, got " ++ s)))
    | Option.none => .error (.badArg (name ++ " expects an integer, got None"))
  else if argtype = some "float" ∨ argtype = some "num" ∨ argtype = some "number" then
    match arg with
    | some s =>
        if pyfloat_roundtrip s then .ok (.float s)
        else .error (.badArg (name ++ " expects an floating-point number, got " ++ s))
    | Option.none =>
        .error (.badArg (name ++ " expects an floating-point number, got None"))
  else if argtype = some "bool" ∨ argtype = some "boolean" then
    if arg = some "true" then .ok (.bool true)
    else if arg = some "false" then .ok (.bool false)
    else .error (.badArg (name ++ " expects either true or false"))
  else if argtype = Option.none ∨ argtype = some "" ∨ argtype = some "scalar" then
    match arg with
    | some s => .ok (scalarConv s)
    | Option.none => .ok .none
  else
    .error (.badArg ("Don't know how to parse option " ++ name))

/-! ### The argument binder: `parse_args` (source lines 162-303) -/
/-- `wire.Argspec` (source lines 528-538), as `parse_args` consumes it. -/
structure Argspec where
  switches : List String
  flags : List String
  lists : List String
  positional : List String
  optional : List String
  tail : Option String
  argtypes : List (String × String)
  descriptions : List (String × String)
deriving Repr

/-- The flag-occurrence dictionary built by the partition loop: key to the
occurrence values, in order (a `None` value marks a valueless occurrence). -/
abbrev Flags := List (String × List (Option String))

/-- The bound-arguments dictionary. -/
abbrev Args := List (String × PyVal)

/-- Record one `--key[=value]` occurrence (source lines 174-176). -/
def flagsAdd : Flags → String → Option String → Flags
  | [], key, v => [(key, [v])]
  | (k, vs) :: rest, key, v =>
      if k = key then (k, vs ++ [v]) :: rest else (k, vs) :: flagsAdd rest key v

/-- Does the token start with `--`? -/
def isFlagTok (s : String) : Bool :=
  match s.data with
  | '-' :: '-' :: _ => true
  | _ => false

/-- `arg[2:].split('=', 1)` (the `'=' in arg` test is equivalent to testing
`arg[2:]`, the two leading characters being `-`). -/
def splitFirstEq : List Char → List Char × Option (List Char)
  | [] => ([], Option.none)
  | c :: rest =>
      if c = '=' then ([], some rest)
      else
        let p := splitFirstEq rest
        (c :: p.1, p.2)

/-- The key and value of a `--key[=value]` token. -/
def flagKeyVal (tok : String) : String × Option String :=
  let p := splitFirstEq (tok.data.drop 2)
  (⟨p.1⟩, p.2.map (fun cs => ⟨cs⟩))

/-- The partition loop of `parse_args` (source lines 168-178), threading the
loop variable `value` (it is read again, stale, at lines 208, 247 and 271):
bare tokens in order, the flag dictionary, and the last `value` assigned
(`Option.none` while the variable is still unbound). -/
def partitionGo : List String → List String → Flags → Option (Option String) →
    List String × Flags × Option (Option String)
  | [], opts, flags, lastVal => (opts, flags, lastVal)
  | arg :: rest, opts, flags, lastVal =>
      if isFlagTok arg then
        let kv := flagKeyVal arg
        partitionGo rest opts (flagsAdd flags kv.1 kv.2) (some kv.2)
      else
        partitionGo rest (opts ++ [arg]) flags lastVal

/-- Partition `argv` into bare options and flag occurrences. -/
def partitionArgv (argv : List String) : List String × Flags × Option (Option String) :=
  partitionGo argv [] [] Option.none

/-- The mutable state of the binding loops: the not-yet-consumed flag
dictionary, the bound arguments, and the stale `value` variable. -/
structure BindSt where
  flags : Flags
  args : Args
  lastVal : Option (Option String)
deriving Repr

/-- The stale local `value` fed to `try_parse` by source lines 208, 247 and
271.  Reading it while unbound would be an `UnboundLocalError` (modelled as
`nameError`); that cannot happen on the paths `parse_args` takes, because
the variable is assigned whenever the flag dictionary is nonempty. -/
def tryParseStale (name : String) (lastVal : Option (Option String))
    (argtype : Option String) : Except PyErr PyVal :=
  match lastVal with
  | some v => try_parse name v argtype
  | Option.none => .error (.nameError "local variable value referenced before assignment")

/-- A `for name in names:` loop whose body may raise: run `step` on each
name in order, stopping at the first exception. -/
def chainSteps (step : String → BindSt → Except PyErr BindSt) :
    List String → BindSt → Except PyErr BindSt
  | [], st => .ok st
  | n :: rest, st =>
      match step n st with
      | .ok st2 => chainSteps step rest st2
      | .error e => .error e

/-- One iteration of the switch-binding loop (source lines 180-195). -/
def bindSwitchStep (name : String) (st : BindSt) : Except PyErr BindSt :=
  let st := { st with args := dictInsert st.args name (.bool false) }
  match dictLookup st.flags name with
  | Option.none => .ok st
  | some values =>
      let st := { st with flags := dictPop st.flags name }
      match values with
      | [] => .error (.badArg ("value given for switch flag " ++ name))
      | v0 :: vrest =>
          if vrest ≠ [] then .error (.badArg ("duplicate switch flag for: " ++ name))
          else
            match v0 with
            | Option.none => .ok { st with args := dictInsert st.args name (.bool true) }
            | some s =>
                match try_parse name (some s) (some "boolean") with
                | .ok v => .ok { st with args := dictInsert st.args name v }
                | .error e => .error e

/-- Switch binding (source lines 180-195). -/
def bindSwitches (sw : List String) (st : BindSt) : Except PyErr BindSt :=
  chainSteps bindSwitchStep sw st

/-- One iteration of the single-valued-flag loop (source lines 197-208).
Line 208 passes the stale partition-loop variable `value` to `try_parse`,
not `values[0]`. -/
def bindFlagStep (argtypes : List (String × String)) (name : String) (st : BindSt) :
    Except PyErr BindSt :=
  let st := { st with args := dictInsert st.args name .none }
  match dictLookup st.flags name with
  | Option.none => .ok st
  | some values =>
      let st := { st with flags := dictPop st.flags name }
      match values with
      | [] => .error (.badArg ("missing value for option flag " ++ name))
      | v0 :: vrest =>
          if v0 = Option.none then
            .error (.badArg ("missing value for option flag " ++ name))
          else if vrest ≠ [] then
            .error (.badArg ("duplicate option flag for: " ++ name))
          else
            match tryParseStale name st.lastVal (dictLookup argtypes name) with
            | .ok v => .ok { st with args := dictInsert st.args name v }
            | .error e => .error e

/-- Single-valued flag binding (source lines 197-208). -/
def bindFlags (argtypes : List (String × String)) (fl : List String) (st : BindSt) :
    Except PyErr BindSt :=
  chainSteps (bindFlagStep argtypes) fl st

/-- The inner loop of list binding (source lines 219-220): the loop
variable is `value` itself, so it is re-assigned before each `try_parse`
call. -/
def bindListLoop (name : String) (ty : Option String) :
    List (Option String) → List PyVal → Option (Option String) →
    Except PyErr (List PyVal × Option (Option String))
  | [], acc, lastVal => .ok (acc, lastVal)
  | v :: rest, acc, _ =>
      match try_parse name v ty with
      | .ok x => bindListLoop name ty rest (acc ++ [x]) (some v)
      | .error e => .error e

/-- One iteration of the list-flag loop (source lines 210-220). -/
def bindListStep (argtypes : List (String × String)) (name : String) (st : BindSt) :
    Except PyErr BindSt :=
  let st := { st with args := dictInsert st.args name (.list []) }
  match dictLookup st.flags name with
  | Option.none => .ok st
  | some values =>
      let st := { st with flags := dictPop st.flags name }
      if values = [] ∨ Option.none ∈ values then
        .error (.badArg ("missing value for list flag " ++ name))
      else
        match bindListLoop name (dictLookup argtypes name) values [] st.lastVal with
        | .ok p =>
            .ok { st with args := dictInsert st.args name (.list p.1), lastVal := p.2 }
        | .error e => .error e

/-- List flag binding (source lines 210-220). -/
def bindLists (argtypes : List (String × String)) (ls : List String) (st : BindSt) :
    Except PyErr BindSt :=
  chainSteps (bindListStep argtypes) ls st

/-- The named-mode decision (source lines 222-233): some positional,
optional or tail name appears among the unconsumed flag keys. -/
def namedArgs (spec : Argspec) (flags : Flags) : Bool :=
  decide (flags ≠ []) &&
    (spec.positional.any (fun n => dictMem flags n) ||
     spec.optional.any (fun n => dictMem flags n) ||
     (match spec.tail with
      | some t => dictMem flags t
      | Option.none => false))

/-- One iteration of named-mode positional binding (source lines 236-247).
Line 239 raises the undefined global name `BadArg` — a `NameError`, not a
`wire.BadArg` — and line 247 passes the stale `value` to `try_parse`. -/
def bindNamedPositionalStep (argtypes : List (String × String)) (name : String)
    (st : BindSt) : Except PyErr BindSt :=
  let st := { st with args := dictInsert st.args name .none }
  match dictLookup st.flags name with
  | Option.none => .error (.nameError "name BadArg is not defined")
  | some values =>
      let st := { st with flags := dictPop st.flags name }
      match values with
      | [] => .error (.badArg ("missing value for named option " ++ name))
      | v0 :: vrest =>
          if v0 = Option.none then
            .error (.badArg ("missing value for named option " ++ name))
          else if vrest ≠ [] then
            .error (.badArg ("duplicate named option for: " ++ name))
          else
            match tryParseStale name st.lastVal (dictLookup argtypes name) with
            | .ok v => .ok { st with args := dictInsert st.args name v }
            | .error e => .error e

/-- Named-mode positional binding (source lines 236-247). -/
def bindNamedPositional (argtypes : List (String × String)) (ps : List String)
    (st : BindSt) : Except PyErr BindSt :=
  chainSteps (bindNamedPositionalStep argtypes) ps st

/-- One iteration of named-mode optional binding (source lines 249-260).
Line 260 calls `try_parse(value, argtypes.get(name))` with two of its
three required positional arguments — a `TypeError` whenever the branch is
reached. -/
def bindNamedOptionalStep (argtypes : List (String × String)) (name : String)
    (st : BindSt) : Except PyErr BindSt :=
  let st := { st with args := dictInsert st.args name .none }
  match dictLookup st.flags name with
  | Option.none => .ok st
  | some values =>
      let _st := { st with flags := dictPop st.flags name }
      match values with
      | [] => .error (.badArg ("missing value for named option " ++ name))
      | v0 :: vrest =>
          if v0 = Option.none then
            .error (.badArg ("missing value for named option " ++ name))
          else if vrest ≠ [] then
            .error (.badArg ("duplicate named option for: " ++ name))
          else
            .error (.typeError
              "try_parse missing 1 required positional argument: argtype")

/-- Named-mode optional binding (source lines 249-260). -/
def bindNamedOptional (argtypes : List (String × String)) (os : List String)
    (st : BindSt) : Except PyErr BindSt :=
  chainSteps (bindNamedOptionalStep argtypes) os st

/-- Named-mode tail binding (source lines 262-271).  The loop variable at
line 270 is `v`, but line 271 passes the stale `value` to `try_parse`, so
every element of `values` is converted from the same stale token. -/
def bindNamedTail (argtypes : List (String × String)) (tail : Option String)
    (st : BindSt) : Except PyErr BindSt :=
  match tail with
  | Option.none => .ok st
  | some name =>
      if name = "" then .ok st
      else
        match dictLookup st.flags name with
        | Option.none => .ok st
        | some values =>
            let st := { st with args := dictInsert st.args name (.list []),
                                flags := dictPop st.flags name }
            if values = [] ∨ Option.none ∈ values then
              .error (.badArg ("missing value for named option  " ++ name))
            else
              match tryParseStale name st.lastVal (dictLookup argtypes name) with
              | .ok x =>
                  .ok { st with
                        args := dictInsert st.args name (.list (values.map (fun _ => x))) }
              | .error e => .error e

/-- A `for name in names:` loop over the bare-token state of positional
mode: the remaining options and the bound arguments. -/
def chainOptSteps
    (step : String → List String → Args → Except PyErr (List String × Args)) :
    List String → List String → Args → Except PyErr (List String × Args)
  | [], options, args => .ok (options, args)
  | n :: rest, options, args =>
      match step n options args with
      | .ok p => chainOptSteps step rest p.1 p.2
      | .error e => .error e

/-- One iteration of positional-mode positional binding (source lines
276-281). -/
def bindPositionalStep (argtypes : List (String × String)) (name : String)
    (options : List String) (args : Args) : Except PyErr (List String × Args) :=
  match options with
  | [] => .error (.badArg ("missing option: " ++ name))
  | o :: orest =>
      match try_parse name (some o) (dictLookup argtypes name) with
      | .ok v => .ok (orest, dictInsert args name v)
      | .error e => .error e

/-- Positional-mode positional binding (source lines 276-281). -/
def bindPositional (argtypes : List (String × String)) (ps : List String)
    (options : List String) (args : Args) : Except PyErr (List String × Args) :=
  chainOptSteps (bindPositionalStep argtypes) ps options args

/-- One iteration of positional-mode optional binding (source lines
283-288). -/
def bindOptionalStep (argtypes : List (String × String)) (name : String)
    (options : List String) (args : Args) : Except PyErr (List String × Args) :=
  match options with
  | [] => .ok ([], dictInsert args name .none)
  | o :: orest =>
      match try_parse name (some o) (dictLookup argtypes name) with
      | .ok v => .ok (orest, dictInsert args name v)
      | .error e => .error e

/-- Positional-mode optional binding (source lines 283-288). -/
def bindOptional (argtypes : List (String × String)) (os : List String)
    (options : List String) (args : Args) : Except PyErr (List String × Args) :=
  chainOptSteps (bindOptionalStep argtypes) os options args

/-- The tail-collecting loop (source lines 294-295). -/
def bindTailLoop (name : String) (ty : Option String) :
    List String → List PyVal → Except PyErr (List PyVal)
  | [], acc => .ok acc
  | o :: rest, acc =>
      match try_parse name (some o) ty with
      | .ok v => bindTailLoop name ty rest (acc ++ [v])
      | .error e => .error e

/-- Positional-mode tail binding (source lines 290-297); the guard
`if argspec.tail:` is Python truthiness, so an empty-string tail name is
skipped. -/
def bindTail (argtypes : List (String × String)) (tail : Option String)
    (options : List String) (args : Args) : Except PyErr (List String × Args) :=
  match tail with
  | Option.none => .ok (options, args)
  | some name =>
      if name = "" then .ok (options, args)
      else
        match bindTailLoop name (dictLookup argtypes name) options [] with
        | .ok xs => .ok ([], dictInsert args name (.list xs))
        | .error e => .error e

/-- The mode branch and residual checks of `parse_args` (source lines
222-303), entered with the post-switch/flag/list state. -/
def parseArgsTail (spec : Argspec) (options : List String) (st3 : BindSt) :
    Except PyErr Args :=
  if namedArgs spec st3.flags then
    match bindNamedPositional spec.argtypes spec.positional st3 with
    | .error e => .error e
    | .ok st4 =>
      match bindNamedOptional spec.argtypes spec.optional st4 with
      | .error e => .error e
      | .ok st5 =>
        match bindNamedTail spec.argtypes spec.tail st5 with
        | .error e => .error e
        | .ok st6 =>
          match options with
          | [] => .ok st6.args
          | _ =>
              .error (.badArg ("unnamed options given " ++
                String.intercalate " " options))
  else
    match st3.flags with
    | [] =>
        (match bindPositional spec.argtypes spec.positional options st3.args with
         | .error e => .error e
         | .ok p1 =>
           match bindOptional spec.argtypes spec.optional p1.1 p1.2 with
           | .error e => .error e
           | .ok p2 =>
             match bindTail spec.argtypes spec.tail p2.1 p2.2 with
             | .error e => .error e
             | .ok p3 =>
               match p3.1 with
               | [] => .ok p3.2
               | _ =>
                   .error (.badArg ("unrecognised option: " ++
                     String.intercalate " " p3.1)))
    | _ =>
        .error (.badArg ("unknown option flags: --" ++
          String.join (st3.flags.map (fun p => p.1))))

/-- The body of `parse_args` after the partition (source lines 180-303). -/
def parseArgsCore (spec : Argspec) (options : List String) (flags : Flags)
    (lastVal : Option (Option String)) : Except PyErr Args :=
  match bindSwitches spec.switches ⟨flags, [], lastVal⟩ with
  | .error e => .error e
  | .ok st1 =>
    match bindFlags spec.argtypes spec.flags st1 with
    | .error e => .error e
    | .ok st2 =>
      match bindLists spec.argtypes spec.lists st2 with
      | .error e => .error e
      | .ok st3 => parseArgsTail spec options st3

/-- Model of the module-level `parse_args(argspec, argv, environ)` (source
lines 162-303); `environ` and the dead local `file_handles` are unused in
the source body and omitted. -/
def parse_args (spec : Argspec) (argv : List String) : Except PyErr Args :=
  let p := partitionArgv argv
  parseArgsCore spec p.1 p.2.1 p.2.2

/-! ### Actions and the wire-side command tree (source lines 554-684) -/
/-- `cli.Action` (source lines 689-694): a resolved intent.  The resolver
produces `call` with the bound arguments, `help` with `{'usage': bool}`,
and `error` with `{'usage': True}` plus the error messages. -/
inductive Action where
  | call (path : List String) (args : Args)
  | help (path : List String) (usage : Bool)
  | error (path : List String) (usage : Bool) (errors : List String)
deriving Repr

/-- `wire.Command` (source lines 554-561): the rendered, transportable
description of a command node.  The source's `prefix` attribute is named
`pfx` (`prefix` is a Lean keyword). -/
inductive WCommand where
  | mk (pfx : List String) (name : String) (subcommands : List (String × WCommand))
      (short : Option String) (long : Option String) (argspec : Option Argspec)

def WCommand.pfx : WCommand → List String
  | .mk p _ _ _ _ _ => p

def WCommand.name : WCommand → String
  | .mk _ n _ _ _ _ => n

def WCommand.subcommands : WCommand → List (String × WCommand)
  | .mk _ _ s _ _ _ => s

def WCommand.short : WCommand → Option String
  | .mk _ _ _ s _ _ => s

def WCommand.long : WCommand → Option String
  | .mk _ _ _ _ l _ => l

def WCommand.argspec : WCommand → Option Argspec
  | .mk _ _ _ _ _ a => a

/-- Python truthiness of a `None`-or-`str` attribute. -/
def optTruthy : Option String → Bool
  | some s => s ≠ ""
  | Option.none => false

/-- The bracketed argument words of `wire.Command.usage` (source lines
667-679), in source order. -/
def usageArgsList (spec : Argspec) : List String :=
  spec.switches.map (fun o => "[--" ++ o ++ "]") ++
  spec.flags.map (fun o => "[--" ++ o ++ "=<" ++ o ++ ">]") ++
  spec.lists.map (fun o => "[--" ++ o ++ "=<" ++ o ++ ">...]") ++
  spec.positional.map (fun o => "<" ++ o ++ ">") ++
  spec.optional.map (fun o => "[<" ++ o ++ ">]") ++
  (match spec.tail with
   | some t => if t = "" then [] else ["[<" ++ t ++ ">...]"]
   | Option.none => [])

/-- `wire.Command.usage` (source lines 662-684). -/
def WCommand.usage (cmd : WCommand) : String :=
  let full := String.intercalate " " (cmd.pfx ++ [cmd.name])
  let specLines : List String :=
    match cmd.argspec with
    | some spec =>
        ["usage: " ++ full ++ " " ++ String.intercalate " " (usageArgsList spec)]
    | Option.none => []
  let subLines : List String :=
    if !cmd.subcommands.isEmpty then
      ["usage: " ++ full ++ " [help] <" ++
        String.intercalate "|" (cmd.subcommands.map (fun p => p.1)) ++ "> [--help]"]
    else []
  String.intercalate "\n" (specLines ++ subLines)

/-- `wire.Command.manual` (source lines 633-660). -/
def WCommand.manual (cmd : WCommand) : String :=
  let full := String.intercalate " " (cmd.pfx ++ [cmd.name])
  let line1 := full ++ (if optTruthy cmd.short then " - " else "") ++ (cmd.short.getD "")
  let descLines : List String :=
    if optTruthy cmd.long then ["description:", cmd.long.getD "", ""] else []
  let optLines : List String :=
    match cmd.argspec with
    | some spec =>
        if spec.descriptions ≠ [] then
          "options:" ::
            (spec.descriptions.map (fun p => "\t" ++ p.1 ++ "\t" ++ p.2) ++ [""])
        else []
    | Option.none => []
  let subLines : List String :=
    if !cmd.subcommands.isEmpty then
      "commands:" ::
        (cmd.subcommands.map (fun p => "\t" ++ p.2.name ++ "\t" ++ (p.2.short.getD ""))
          ++ [""])
    else []
  String.intercalate "\n" ([line1, "", cmd.usage, ""] ++ descLines ++ optLines ++ subLines)

/-- The no-subcommand-match part of `wire.Command.parse_args` (source lines
603-623).  The `except wire.BadArg` at line 622 recovers only `badArg`
failures into an error Action; every other exception propagates. -/
def wireParseArgsNoSub (cmd : WCommand) (path : List String) (argv : List String) :
    Except PyErr Action :=
  match cmd.argspec with
  | Option.none =>
      match argv with
      | a :: _ =>
          if a ≠ "" then
            if a = "help" then .ok (.help path false)
            else if argv.contains "--help" then .ok (.help path true)
            else if !cmd.subcommands.isEmpty then
              .ok (.error path true ["unknown command: " ++ a])
            else .ok (.error path true ["unknown option: " ++ a])
          else .ok (.help path false)
      | [] => .ok (.help path false)
  | some spec =>
      if argv.contains "--help" then .ok (.help path true)
      else
        match parse_args spec argv with
        | .ok args => .ok (.call path args)
        | .error (.badArg m) => .ok (.error path true [m])
        | .error e => .error e

/-- Model of `wire.Command.parse_args` (source lines 599-623).  `fuel`
bounds the subcommand recursion; any value above the tree depth behaves
like the source. -/
def wireParseArgs : Nat → WCommand → List String → List String → Except PyErr Action
  | 0, _, _, _ => .error .recursionError
  | fuel + 1, cmd, path, argv =>
      match argv with
      | a :: rest =>
          (match dictLookup cmd.subcommands a with
           | some subcmd => wireParseArgs fuel subcmd (path ++ [a]) rest
           | Option.none => wireParseArgsNoSub cmd path argv)
      | [] => wireParseArgsNoSub cmd path argv

/-! ### The execution-side command tree: `cli.Command` (source lines 717-845) -/
/-- `wire.Response` (source lines 547-552). -/
structure Response where
  exit_code : Int
  value : PyVal
  file_handles : List (String × List (List Nat))
deriving Repr

/-- `cli.Command` (source lines 717-726): the builder-side node.  `run_fn`
is the bound executable as a pure function of the bound arguments;
`run_doc` models its `__doc__`; `pfx` is the source's `prefix`. -/
inductive CliCommand where
  | mk (name : String) (pfx : List String) (subcommands : List (String × CliCommand))
      (run_fn : Option (Args → PyVal)) (run_doc : Option String)
      (short : Option String) (long : Option String)
      (argspec : Option Argspec) (nargs : Nat)

def CliCommand.name : CliCommand → String
  | .mk n _ _ _ _ _ _ _ _ => n

def CliCommand.pfx : CliCommand → List String
  | .mk _ p _ _ _ _ _ _ _ => p

def CliCommand.subcommands : CliCommand → List (String × CliCommand)
  | .mk _ _ s _ _ _ _ _ _ => s

def CliCommand.run_fn : CliCommand → Option (Args → PyVal)
  | .mk _ _ _ f _ _ _ _ _ => f

def CliCommand.run_doc : CliCommand → Option String
  | .mk _ _ _ _ d _ _ _ _ => d

def CliCommand.short : CliCommand → Option String
  | .mk _ _ _ _ _ s _ _ _ => s

def CliCommand.long : CliCommand → Option String
  | .mk _ _ _ _ _ _ l _ _ => l

def CliCommand.argspec : CliCommand → Option Argspec
  | .mk _ _ _ _ _ _ _ a _ => a

def CliCommand.nargs : CliCommand → Nat
  | .mk _ _ _ _ _ _ _ _ k => k

/-- `cli.Command.render` (source lines 760-769): the node as a
`wire.Command`, with the executable's docstring standing in for a missing
long text.  `fuel` bounds the recursion over subcommands. -/
def cliRender : Nat → CliCommand → WCommand
  | 0, _ => .mk [] "" [] Option.none Option.none Option.none
  | fuel + 1, cmd =>
      let long := if !optTruthy cmd.long && cmd.run_fn.isSome then cmd.run_doc else cmd.long
      .mk cmd.pfx cmd.name (cmd.subcommands.map (fun p => (p.1, cliRender fuel p.2)))
        cmd.short long cmd.argspec

/-- The `wire.FileHandle` instance shape (`isinstance` checks at source
lines 796 and 813). -/
def fhParts : PyVal → Option (PyVal × String × PyVal)
  | .tagged "FileHandle" [("name", nv), ("mode", .str m), ("buf", bv)] => some (nv, m, bv)
  | _ => Option.none

/-- One value through the `invoke` conversion (source lines 795-808 and
813-824): a read handle becomes a `BytesIO` seeded with its payload
(`buf.write(None)` raises `TypeError`); a write handle becomes a fresh
empty `BytesIO`, also recorded for harvesting.  The in-place mutation of a
write buffer by the executable is outside the pure embedding, so a
harvested buffer holds its contents at creation.  A handle with another
mode is passed through unchanged. -/
def invokeConvVal (v : PyVal) : Except PyErr (PyVal × List (List Nat)) :=
  match fhParts v with
  | some (_, mode, bv) =>
      if mode = "read" then
        match bv with
        | .bytes bs => .ok (.stream bs, [])
        | _ => .error (.typeError "a bytes-like object is required, not NoneType")
      else if mode = "write" then .ok (.stream [], [[]])
      else .ok (v, [])
  | Option.none => .ok (v, [])

/-- Elementwise conversion of a list-valued argument (source lines 793-809). -/
def invokeConvList : List PyVal → Except PyErr (List PyVal × List (List Nat))
  | [] => .ok ([], [])
  | v :: rest =>
      match invokeConvVal v with
      | .ok p =>
          (match invokeConvList rest with
           | .ok q => .ok (p.1 :: q.1, p.2 ++ q.2)
           | .error e => .error e)
      | .error e => .error e

/-- One bound argument through the `invoke` conversion. -/
def invokeConvArg (v : PyVal) : Except PyErr (PyVal × List (List Nat)) :=
  match v with
  | .list xs =>
      (match invokeConvList xs with
       | .ok p => .ok (.list p.1, p.2)
       | .error e => .error e)
  | _ => invokeConvVal v

/-- The whole argument dictionary through the `invoke` conversion, plus
the write-buffer harvest (`output_fhs`, source lines 831-835). -/
def invokeConvArgs : Args → Except PyErr (Args × List (String × List (List Nat)))
  | [] => .ok ([], [])
  | (n, v) :: rest =>
      match invokeConvArg v with
      | .ok p =>
          (match invokeConvArgs rest with
           | .ok q => .ok ((n, p.1) :: q.1, (if p.2 ≠ [] then [(n, p.2)] else []) ++ q.2)
           | .error e => .error e)
      | .error e => .error e

/-- `cli.Command.invoke` (source lines 789-837).  Generator draining (line
828) has no counterpart: the model's executables return plain values. -/
def cliInvoke (fn : Args → PyVal) (argv : Args) : Except PyErr Response :=
  match invokeConvArgs argv with
  | .ok p => .ok ⟨0, fn p.1, p.2⟩
  | .error e => .error e

/-- The no-subcommand part of `cli.Command.call` (source lines 778-787).
Line 787 reads the attribute `usage` on the bound method object
`self.render` — the call parentheses are missing — so the no-executable,
nonempty-argv case raises `AttributeError` instead of returning the usage
text. -/
def cliCallLeaf (fuel : Nat) (cmd : CliCommand) (argv : Args) : Except PyErr Response :=
  match cmd.run_fn with
  | some fn =>
      if argv.length = cmd.nargs then cliInvoke fn argv
      else .ok ⟨-1, .str "bad options", []⟩
  | Option.none =>
      if argv.length = 0 then .ok ⟨0, .str (cliRender fuel cmd).manual, []⟩
      else .error (.attributeError "function object has no attribute usage")

/-- Model of `cli.Command.call` (source lines 773-787).  A leading `help`
path element calls the nonexistent method `self.help` — an
`AttributeError` (line 775; `cli.Command` defines no `help`). -/
def cliCall : Nat → CliCommand → List String → Args → Except PyErr Response
  | 0, _, _, _ => .error .recursionError
  | fuel + 1, cmd, path, argv =>
      match path with
      | p :: prest =>
          if p = "help" then
            .error (.attributeError "Command object has no attribute help")
          else
            (match dictLookup cmd.subcommands p with
             | some sub => cliCall fuel sub prest argv
             | Option.none => cliCallLeaf (fuel + 1) cmd argv)
      | [] => cliCallLeaf (fuel + 1) cmd argv

/-! ### The value codec (source lines 349-513)

Buffers are byte lists (`List Nat`, each entry < 256).  Any exception the
source can raise while decoding — `IndexError` on a short buffer, missing
`DEL` terminator, `int()` failure on a length or integer field, an
unrecognized type tag, a registry miss — is `Option.none`. -/
/-- The registered tag names: `codec.classes` as populated at import time
by the `@codec.register()` decorations in `wire` (source lines 515-561). -/
def codecTags : List String :=
  ["BadArg", "FileHandle", "Argspec", "Request", "Response", "Command"]

/-- `.encode('ascii')` of the pure-ASCII texts the codec produces (decimal
renderings, tag names, hex-float texts). -/
def asciiBytes (s : String) : List Nat := s.data.map (fun c => c.toNat)

/-- `.encode('utf-8')`. -/
def utf8Bytes (s : String) : List Nat :=
  (s.data.map (fun c => (String.utf8EncodeChar c).map (fun b => b.toNat))).flatten

/-- `.decode('ascii')`: every byte below 128. -/
def asciiDecode (bs : List Nat) : Option String :=
  if bs.all (fun b => b < 128) then some ⟨bs.map Char.ofNat⟩ else Option.none

/-- A UTF-8 continuation byte. -/
def utf8Cont (b : Nat) : Bool := 128 ≤ b && b < 192

/-- Strict UTF-8 decoding (`.decode('utf-8')`): rejects bad lead bytes,
bad continuations, overlong forms, surrogates, out-of-range points. -/
def utf8DecodeGo : List Nat → List Char → Option (List Char)
  | [], acc => some acc.reverse
  | b :: rest, acc =>
      if b < 128 then utf8DecodeGo rest (Char.ofNat b :: acc)
      else if 194 ≤ b && b ≤ 223 then
        match rest with
        | b1 :: rest1 =>
            if utf8Cont b1 then
              utf8DecodeGo rest1 (Char.ofNat ((b - 192) * 64 + (b1 - 128)) :: acc)
            else Option.none
        | [] => Option.none
      else if 224 ≤ b && b ≤ 239 then
        match rest with
        | b1 :: b2 :: rest2 =>
            if utf8Cont b1 && utf8Cont b2 then
              let cp := (b - 224) * 4096 + (b1 - 128) * 64 + (b2 - 128)
              if 2048 ≤ cp && !(55296 ≤ cp && cp ≤ 57343) then
                utf8DecodeGo rest2 (Char.ofNat cp :: acc)
              else Option.none
            else Option.none
        | _ => Option.none
      else if 240 ≤ b && b ≤ 244 then
        match rest with
        | b1 :: b2 :: b3 :: rest3 =>
            if utf8Cont b1 && utf8Cont b2 && utf8Cont b3 then
              let cp := (b - 240) * 262144 + (b1 - 128) * 4096 + (b2 - 128) * 64 + (b3 - 128)
              if 65536 ≤ cp && cp ≤ 1114111 then
                utf8DecodeGo rest3 (Char.ofNat cp :: acc)
              else Option.none
            else Option.none
        | _ => Option.none
      else Option.none

/-- `.decode('utf-8')`. -/
def utf8Decode (bs : List Nat) : Option String :=
  (utf8DecodeGo bs []).map (fun cs => ⟨cs⟩)

/-- `buf.index(target, start)`: index of the first occurrence at or after
`start` (`None` models the `ValueError` when there is none). -/
def indexFromGo : List Nat → Nat → Nat → Option Nat
  | [], _, _ => Option.none
  | b :: rest, target, i => if b = target then some i else indexFromGo rest target (i + 1)

def indexFrom (buf : List Nat) (target : Nat) (start : Nat) : Option Nat :=
  indexFromGo (buf.drop start) target start

/-- `buf[a:b]`. -/
def slice (buf : List Nat) (a b : Nat) : List Nat := (buf.drop a).take (b - a)

/-- A hexadecimal digit character. -/
def isHexDigitCh (c : Char) : Bool :=
  (charDigit c).isSome || (97 ≤ c.toNat && c.toNat ≤ 102) || (65 ≤ c.toNat && c.toNat ≤ 70)

/-- A run of hexadecimal digits: its length and the remainder. -/
def hexDigitsSpan : List Char → Nat × List Char
  | [] => (0, [])
  | c :: rest =>
      if isHexDigitCh c then
        let p := hexDigitsSpan rest
        (p.1 + 1, p.2)
      else (0, c :: rest)

/-- A run of decimal digits: its length and the remainder. -/
def decDigitsSpan : List Char → Nat × List Char
  | [] => (0, [])
  | c :: rest =>
      if (charDigit c).isSome then
        let p := decDigitsSpan rest
        (p.1 + 1, p.2)
      else (0, c :: rest)

/-- The optional binary exponent of a hex-float text. -/
def hexFloatExpOk : List Char → Bool
  | [] => true
  | c :: rest =>
      if c = 'p' || c = 'P' then
        let rest2 :=
          match rest with
          | s :: r2 => if s = '+' || s = '-' then r2 else rest
          | [] => rest
        let p := decDigitsSpan rest2
        p.1 ≠ 0 && p.2.isEmpty
      else false

/-- Syntactic model of the texts `float.fromhex` accepts (source line 403):
optional sign, optional `0x`/`0X`, hex digits with an optional point and
fraction (at least one digit overall), optional `p` exponent, or an
`inf`/`infinity`/`nan` form (modelled lowercase).  The denoted double is
carried as the text itself, per the `PyVal.float` convention. -/
def hexFloatTextOk (s : String) : Bool :=
  let body : List Char → Bool := fun cs =>
    if cs = "inf".data ∨ cs = "infinity".data ∨ cs = "nan".data then true
    else
      let cs2 : List Char :=
        match cs with
        | '0' :: x :: rest => if x = 'x' || x = 'X' then rest else cs
        | _ => cs
      let p1 := hexDigitsSpan cs2
      match p1.2 with
      | '.' :: rest =>
          let p2 := hexDigitsSpan rest
          (p1.1 + p2.1 ≠ 0) && hexFloatExpOk p2.2
      | other => p1.1 ≠ 0 && hexFloatExpOk other
  match pyStrip s.data with
  | '-' :: rest => body rest
  | '+' :: rest => body rest
  | cs => body cs

/-- The byte sequence of one dumped text string (the non-recursive string
case of `codec.dump`, source lines 474-480). -/
def dumpStrBytes (s : String) : List Nat :=
  [117] ++ asciiBytes (natToStr (utf8Bytes s).length) ++ [127] ++ utf8Bytes s ++ [127]

/-- Model of `codec.dump(obj, buf)` (source lines 453-505).  The float case
(source lines 464-467) appends `codec.INT` — byte 105, 'i' — before the
`float.hex` text, not `codec.FLOAT` (byte 102, 'f') as the format doc at
source line 358 prescribes.  `Option.none` models the
`Exception('bad obj')` for an object of an unregistered class.  `fuel`
bounds the nesting depth of the value; any fuel above it behaves like the
source, whose recursion is limited only by the interpreter stack. -/
def codecDump : Nat → PyVal → List Nat → Option (List Nat)
  | 0, _, _ => Option.none
  | fuel + 1, v, buf =>
      match v with
      | .bool true => some (buf ++ [121])
      | .bool false => some (buf ++ [110])
      | .none => some (buf ++ [122])
      | .int i => some (buf ++ [105] ++ asciiBytes (intToStr i) ++ [127])
      | .float text => some (buf ++ [105] ++ asciiBytes text ++ [127])
      | .bytes bs =>
          some (buf ++ [98] ++ asciiBytes (natToStr bs.length) ++ [127] ++ bs ++ [127])
      | .str s => some (buf ++ dumpStrBytes s)
      | .list xs =>
          (match xs.foldl (fun acc x =>
              match acc with
              | some b => codecDump fuel x b
              | Option.none => Option.none)
            (some (buf ++ [76] ++ asciiBytes (natToStr xs.length) ++ [127])) with
           | some b => some (b ++ [127])
           | Option.none => Option.none)
      | .record fields =>
          (match fields.foldl (fun acc p =>
              match acc with
              | some b =>
                  (match codecDump fuel p.1 b with
                   | some b2 => codecDump fuel p.2 b2
                   | Option.none => Option.none)
              | Option.none => Option.none)
            (some (buf ++ [82] ++ asciiBytes (natToStr fields.length) ++ [127])) with
           | some b => some (b ++ [127])
           | Option.none => Option.none)
      | .tagged tag fields =>
          if codecTags.contains tag then
            (match fields.foldl (fun acc p =>
                match acc with
                | some b => codecDump fuel p.2 (b ++ dumpStrBytes p.1)
                | Option.none => Option.none)
              (some (buf ++ [84] ++ asciiBytes tag ++ [127] ++ [82] ++
                asciiBytes (natToStr fields.length) ++ [127])) with
             | some b => some (b ++ [127, 127])
             | Option.none => Option.none)
          else Option.none
      | .stream _ => Option.none

/-- String-keyed fields of a parsed record, if every key is a string. -/
def strKeyedFields : List (PyVal × PyVal) → Option (List (String × PyVal))
  | [] => some []
  | (.str k, v) :: rest =>
      (match strKeyedFields rest with
       | some out => some ((k, v) :: out)
       | Option.none => Option.none)
  | _ => Option.none

/-- `cls(**args)` at source line 445 requires the parsed argument value to
be a record whose keys are strings (keyword expansion); the matching of
field names against the constructor signature is not modelled. -/
def recordStrFields : PyVal → Option (List (String × PyVal))
  | .record fields => strKeyedFields fields
  | _ => Option.none

/-- Python `==` as it applies to hashable parsed record keys: `None`,
booleans, integers, floats, strings and bytes compare by value; freshly
parsed registered-class instances (and streams) compare by identity and so
are never equal to one another; the cross-type numeric equalities of
Python (`True == 1`, `1 == 1.0`) are not modelled. -/
def pvKeyEq : PyVal → PyVal → Bool
  | .none, .none => true
  | .bool a, .bool b => a == b
  | .int a, .int b => a == b
  | .float a, .float b => a == b
  | .str a, .str b => a == b
  | .bytes a, .bytes b => a == b
  | _, _ => false

/-- An unhashable value (list or dict) cannot be a Python dict key; using
one in `out[key] = value` raises `TypeError`. -/
def pvHashable : PyVal → Bool
  | .list _ => false
  | .record _ => false
  | _ => true

/-- `out[key] = value` for a parsed record: a Python dict assignment
overwrites in place (the first-inserted key object is kept). -/
def pvDictInsert : List (PyVal × PyVal) → PyVal → PyVal → List (PyVal × PyVal)
  | [], key, v => [(key, v)]
  | (k, w) :: rest, key, v =>
      if pvKeyEq k key then (k, v) :: rest else (k, w) :: pvDictInsert rest key v

/-- A terminated, `int()`-parsed ASCII field: the number and the position
just after its `DEL` (used for lengths and counts). -/
def parseNatField (buf : List Nat) (offset : Nat) : Option (Nat × Nat) :=
  match indexFrom buf 127 offset with
  | some e =>
      (match asciiDecode (slice buf offset e) with
       | some s =>
           (match pyint s with
            | some i => if i < 0 then Option.none else some (i.toNat, e + 1)
            | Option.none => Option.none)
       | Option.none => Option.none)
  | Option.none => Option.none

/-- Model of `codec.parse(buf, offset)` (source lines 388-450).  `fuel`
bounds the recursion into nested values; any fuel above the nesting depth
behaves like the source.  A negative element/pair/byte count (expressible
since counts go through `int()`) is not modelled and decodes to
`Option.none`.  The element and pair loops (source lines 422-425 and
432-436) are folds threading the read position; a repeated record key
would overwrite in place as a Python dict assignment does. -/
def codecParse : Nat → List Nat → Nat → Option (PyVal × Nat)
  | 0, _, _ => Option.none
  | fuel + 1, buf, offset =>
      match buf.get? offset with
      | Option.none => Option.none
      | some peek =>
          if peek = 121 then some (.bool true, offset + 1)
          else if peek = 110 then some (.bool false, offset + 1)
          else if peek = 122 then some (.none, offset + 1)
          else if peek = 105 then
            (match indexFrom buf 127 (offset + 1) with
             | some e =>
                 (match asciiDecode (slice buf (offset + 1) e) with
                  | some s =>
                      (match pyint s with
                       | some i => some (.int i, e + 1)
                       | Option.none => Option.none)
                  | Option.none => Option.none)
             | Option.none => Option.none)
          else if peek = 102 then
            (match indexFrom buf 127 (offset + 1) with
             | some e =>
                 (match asciiDecode (slice buf (offset + 1) e) with
                  | some s => if hexFloatTextOk s then some (.float s, e + 1) else Option.none
                  | Option.none => Option.none)
             | Option.none => Option.none)
          else if peek = 98 then
            (match parseNatField buf (offset + 1) with
             | some p =>
                 (match indexFrom buf 127 (p.2 + p.1) with
                  | some e2 => some (.bytes (slice buf p.2 (p.2 + p.1)), e2 + 1)
                  | Option.none => Option.none)
             | Option.none => Option.none)
          else if peek = 117 then
            (match parseNatField buf (offset + 1) with
             | some p =>
                 (match utf8Decode (slice buf p.2 (p.2 + p.1)) with
                  | some s =>
                      (match indexFrom buf 127 (p.2 + p.1) with
                       | some e2 => some (.str s, e2 + 1)
                       | Option.none => Option.none)
                  | Option.none => Option.none)
             | Option.none => Option.none)
          else if peek = 76 then
            (match parseNatField buf (offset + 1) with
             | some p =>
                 (match (List.range p.1).foldl (fun acc _ =>
                     match acc with
                     | some q =>
                         (match codecParse fuel buf q.2 with
                          | some pv => some (q.1 ++ [pv.1], pv.2)
                          | Option.none => Option.none)
                     | Option.none => Option.none)
                   (some (([] : List PyVal), p.2)) with
                  | some q =>
                      (match indexFrom buf 127 q.2 with
                       | some e2 => some (.list q.1, e2 + 1)
                       | Option.none => Option.none)
                  | Option.none => Option.none)
             | Option.none => Option.none)
          else if peek = 82 then
            (match parseNatField buf (offset + 1) with
             | some p =>
                 (match (List.range p.1).foldl (fun acc _ =>
                     match acc with
                     | some q =>
                         (match codecParse fuel buf q.2 with
                          | some pk =>
                              (match codecParse fuel buf pk.2 with
                               | some pv =>
                                   if pvHashable pk.1 then
                                     some (pvDictInsert q.1 pk.1 pv.1, pv.2)
                                   else Option.none
                               | Option.none => Option.none)
                          | Option.none => Option.none)
                     | Option.none => Option.none)
                   (some (([] : List (PyVal × PyVal)), p.2)) with
                  | some q =>
                      (match indexFrom buf 127 q.2 with
                       | some e2 => some (.record q.1, e2 + 1)
                       | Option.none => Option.none)
                  | Option.none => Option.none)
             | Option.none => Option.none)
          else if peek = 84 then
            (match indexFrom buf 127 (offset + 1) with
             | some e =>
                 (match asciiDecode (slice buf (offset + 1) e) with
                  | some tag =>
                      if codecTags.contains tag then
                        match codecParse fuel buf (e + 1) with
                        | some q =>
                            (match recordStrFields q.1 with
                             | some fields =>
                                 (match indexFrom buf 127 q.2 with
                                  | some e2 => some (.tagged tag fields, e2 + 1)
                                  | Option.none => Option.none)
                             | Option.none => Option.none)
                        | Option.none => Option.none
                      else Option.none
                  | Option.none => Option.none)
             | Option.none => Option.none)
          else Option.none

/-! ### Derived notions used by the theorems -/
/-- The occurrence values of `key` read directly off the flag tokens of
`argv`: a token counts when it starts with `--` and the text between `--`
and the first `=` is `key`; its value is the remainder after that `=`
(`Option.none` when the token has no `=`). -/
def flagTokVals (argv : List String) (key : String) : List (Option String) :=
  (argv.filter (fun tok => isFlagTok tok && (flagKeyVal tok).1 == key)).map
    (fun tok => (flagKeyVal tok).2)

/-- The occurrence list the partition records for `key` (empty when the key
never occurs). -/
def flagOccs (argv : List String) (key : String) : List (Option String) :=
  (dictLookup (partitionArgv argv).2.1 key).getD []

/-- All declared names of an Argspec across its six categories. -/
def Argspec.names (spec : Argspec) : List String :=
  spec.switches ++ spec.flags ++ spec.lists ++ spec.positional ++ spec.optional ++
    (match spec.tail with
     | some t => [t]
     | Option.none => [])

/-- The data-model invariant `parse_argspec` enforces: every declared name
is unique across all six categories. -/
def SpecWF (spec : Argspec) : Prop := spec.names.Nodup

/-! ### Concrete fixtures -/
/-- Argspec `--s? --x` : one switch `s`, one single-valued flag `x`. -/
def specFlagSwitch : Argspec := ⟨["s"], ["x"], [], [], [], Option.none, [], []⟩

/-- Argspec `a b` : two positional names. -/
def specPosAB : Argspec := ⟨[], [], [], ["a", "b"], [], Option.none, [], []⟩

/-- Argspec `a [c]` : a positional and an optional name. -/
def specPosOpt : Argspec := ⟨[], [], [], ["a"], ["c"], Option.none, [], []⟩

/-- Argspec `a` : one positional name. -/
def specPosA : Argspec := ⟨[], [], [], ["a"], [], Option.none, [], []⟩

/-- Argspec `--s?` : one switch. -/
def specSwitchOnly : Argspec := ⟨["s"], [], [], [], [], Option.none, [], []⟩

/-- Argspec `a b [c] [t...]` : positionals, an optional and a tail, all of
default scalar type. -/
def specPosOptTail : Argspec := ⟨[], [], [], ["a", "b"], ["c"], some "t", [], []⟩

/-- A rendered leaf command whose argspec is `a b`. -/
def wcmdPosAB : WCommand :=
  .mk [] "demo" [] Option.none Option.none (some specPosAB)

/-- A rendered leaf command whose argspec is `a [c]`. -/
def wcmdPosOpt : WCommand :=
  .mk [] "demo" [] Option.none Option.none (some specPosOpt)

/-- An execution-side node with no bound executable. -/
def cliGroupNode : CliCommand :=
  .mk "tool" [] [] Option.none Option.none (some "demo tool") Option.none Option.none 0

/-- An execution-side node whose executable echoes its bound values and
whose compiled arity is 1. -/
def cliExeNode : CliCommand :=
  .mk "run" [] [] (some (fun args => PyVal.list (args.map (fun p => p.2))))
    Option.none Option.none Option.none Option.none 1

theorem dictLookup_dictInsert_self {α : Type} (d : List (String × α)) (k : String) (v : α) :
    dictLookup (dictInsert d k v) k = some v := by
  induction d with
  | nil => simp [dictInsert, dictLookup]
  | cons hd tl ih =>
    obtain ⟨k0, v0⟩ := hd
    by_cases h : k0 = k <;> simp [dictInsert, dictLookup, h, ih]

theorem dictLookup_dictInsert_ne {α : Type} (d : List (String × α)) (k k' : String) (v : α)
    (h : k ≠ k') : dictLookup (dictInsert d k v) k' = dictLookup d k' := by
  induction d with
  | nil => simp [dictInsert, dictLookup, h]
  | cons hd tl ih =>
    obtain ⟨k0, v0⟩ := hd
    by_cases h0 : k0 = k
    · subst h0
      simp [dictInsert, dictLookup, h]
    · simp [dictInsert, dictLookup, h0, ih]

theorem dictLookup_dictPop_ne {α : Type} (d : List (String × α)) (k k' : String)
    (h : k ≠ k') : dictLookup (dictPop d k) k' = dictLookup d k' := by
  induction d with
  | nil => simp [dictPop, dictLookup]
  | cons hd tl ih =>
    obtain ⟨k0, v0⟩ := hd
    by_cases h0 : k0 = k
    · subst h0
      simp [dictPop, dictLookup, h]
    · simp [dictPop, dictLookup, h0, ih]

/-! Round-trip: `pyint (intToStr i) = some i`. -/
theorem charDigit_digitChar (d : Nat) (h : d < 10) : charDigit (digitChar d) = some d := by
  interval_cases d <;> rfl

theorem digitChar_props (d : Nat) (h : d < 10) :
    charDigit (digitChar d) = some d ∧ digitChar d ≠ '_' ∧ digitChar d ≠ '-' ∧
      digitChar d ≠ '+' ∧ isPyWsChar (digitChar d) = false := by
  interval_cases d <;> exact ⟨rfl, by decide, by decide, by decide, by decide⟩

/-- Every character `natDigitsGo` produces is a decimal digit character. -/
theorem natDigitsGo_mem (fuel n : Nat) (hn : n < fuel) :
    ∀ c ∈ natDigitsGo fuel n, ∃ d, d < 10 ∧ c = digitChar d := by
  induction fuel generalizing n with
  | zero => omega
  | succ fuel ih =>
    intro c hc
    by_cases h10 : n < 10
    · simp only [natDigitsGo, if_pos h10, List.mem_singleton] at hc
      exact ⟨n, h10, hc⟩
    · simp only [natDigitsGo, if_neg h10, List.mem_append, List.mem_singleton] at hc
      rcases hc with hc | hc
      · exact ih (n / 10) (by omega) c hc
      · exact ⟨n % 10, Nat.mod_lt _ (by omega), hc⟩

theorem natDigitsGo_ne_nil (fuel n : Nat) (hn : n < fuel) : natDigitsGo fuel n ≠ [] := by
  cases fuel with
  | zero => omega
  | succ fuel =>
    by_cases h10 : n < 10
    · simp [natDigitsGo, h10]
    · simp [natDigitsGo, h10]

theorem foldDigits_append_digit (acc : Nat) (cs : List Char) (c : Char) :
    foldDigits acc (cs ++ [c]) = (foldDigits acc cs) * 10 + ((charDigit c).getD 0) := by
  simp [foldDigits, List.foldl_append]

theorem foldDigits_natDigitsGo (fuel : Nat) :
    ∀ n acc, n < fuel →
      foldDigits acc (natDigitsGo fuel n) = acc * 10 ^ (natDigitsGo fuel n).length + n := by
  induction fuel with
  | zero => omega
  | succ fuel ih =>
    intro n acc hn
    by_cases h10 : n < 10
    · simp only [natDigitsGo, if_pos h10]
      simp [foldDigits, charDigit_digitChar n h10]
    · simp only [natDigitsGo, if_neg h10]
      rw [foldDigits_append_digit]
      rw [ih (n / 10) acc (by omega)]
      rw [charDigit_digitChar (n % 10) (Nat.mod_lt _ (by omega))]
      simp only [Option.getD_some, List.length_append, List.length_singleton]
      rw [pow_succ, ← Nat.mul_assoc]
      set A := acc * 10 ^ (natDigitsGo fuel (n / 10)).length with hA
      have hdm := Nat.div_add_mod n 10
      omega

/-- `pyDigitsGo` on an underscore-free all-digit list is the plain fold. -/
theorem pyDigitsGo_digits (cs : List Char) :
    ∀ acc, (∀ c ∈ cs, ∃ d, d < 10 ∧ c = digitChar d) →
      pyDigitsGo acc cs = some (foldDigits acc cs) := by
  induction cs with
  | nil => intro acc _; simp [pyDigitsGo, foldDigits]
  | cons c rest ih =>
    intro acc hall
    obtain ⟨d, hd, hc⟩ := hall c (by simp)
    obtain ⟨hdig, hus, _, _, _⟩ := digitChar_props d hd
    subst hc
    simp only [pyDigitsGo, if_neg hus, hdig]
    rw [ih _ (fun c hc => hall c (by simp [hc]))]
    simp [foldDigits, hdig]

theorem pyDigitsVal_natDigitsGo (fuel n : Nat) (hn : n < fuel) :
    pyDigitsVal (natDigitsGo fuel n) = some n := by
  have hmem := natDigitsGo_mem fuel n hn
  have hne := natDigitsGo_ne_nil fuel n hn
  rcases hds : natDigitsGo fuel n with _ | ⟨c, rest⟩
  · exact absurd hds hne
  · obtain ⟨d, hd, hc⟩ := hmem c (by rw [hds]; simp)
    obtain ⟨hdig, _, _, _, _⟩ := digitChar_props d hd
    subst hc
    simp only [pyDigitsVal, hdig]
    rw [pyDigitsGo_digits rest d (fun c hc => hmem c (by rw [hds]; simp [hc]))]
    have hfold := foldDigits_natDigitsGo fuel n 0 hn
    rw [hds] at hfold
    have h2 : foldDigits 0 (digitChar d :: rest) = foldDigits d rest := by
      simp [foldDigits, hdig]
    rw [h2] at hfold
    simp only [Nat.zero_mul, Nat.zero_add] at hfold
    rw [hfold]

theorem dropWhileAllFalse {p : Char → Bool} (cs : List Char)
    (h : ∀ c ∈ cs, p c = false) : cs.dropWhile p = cs := by
  cases cs with
  | nil => rfl
  | cons c rest => simp [List.dropWhile_cons, h c (by simp)]

theorem pyStrip_of_no_ws (cs : List Char) (h : ∀ c ∈ cs, isPyWsChar c = false) :
    pyStrip cs = cs := by
  unfold pyStrip
  rw [dropWhileAllFalse cs h]
  rw [dropWhileAllFalse cs.reverse (fun c hc => h c (List.mem_reverse.mp hc))]
  exact List.reverse_reverse cs

/-- Round-trip: Python `int` applied to `str(i)` gives back `i`. -/
theorem pyint_intToStr (i : Int) : pyint (intToStr i) = some i := by
  by_cases hneg : i < 0
  · simp only [intToStr, if_pos hneg, pyint]
    have hmem := natDigitsGo_mem (i.natAbs + 1) i.natAbs (by omega)
    have hnows : ∀ c ∈ '-' :: natDigitsGo (i.natAbs + 1) i.natAbs, isPyWsChar c = false := by
      intro c hc
      rcases hc with _ | hc
      · decide
      · obtain ⟨d, hd, hc⟩ := hmem c (by assumption)
        subst hc
        exact (digitChar_props d hd).2.2.2.2
    rw [pyStrip_of_no_ws _ hnows]
    simp only [pySignedDigits, if_pos rfl]
    rw [pyDigitsVal_natDigitsGo (i.natAbs + 1) i.natAbs (by omega)]
    have habs2 : -((i.natAbs : Int)) = i := by omega
    simp [habs2]
    rw [abs_of_neg hneg]
    omega
  · simp only [intToStr, if_neg hneg, natToStr, pyint]
    have hmem := natDigitsGo_mem (i.natAbs + 1) i.natAbs (by omega)
    have hnows : ∀ c ∈ natDigitsGo (i.natAbs + 1) i.natAbs, isPyWsChar c = false := by
      intro c hc
      obtain ⟨d, hd, hc⟩ := hmem c hc
      subst hc
      exact (digitChar_props d hd).2.2.2.2
    rw [pyStrip_of_no_ws _ hnows]
    rcases hds : natDigitsGo (i.natAbs + 1) i.natAbs with _ | ⟨c, rest⟩
    · exact absurd hds (natDigitsGo_ne_nil _ _ (by omega))
    · obtain ⟨d, hd, hc⟩ := hmem c (by rw [hds]; simp)
      obtain ⟨_, _, hminus, hplus, _⟩ := digitChar_props d hd
      subst hc
      simp only [pySignedDigits, if_neg hminus, if_neg hplus]
      rw [← hds]
      rw [pyDigitsVal_natDigitsGo (i.natAbs + 1) i.natAbs (by omega)]
      have habs2 : ((i.natAbs : Int)) = i := by omega
      simp [habs2]

/-! ### Theorems for the claims -/
/-- C1: dumping a float writes the integer tag byte 105 ('i'), not 102
('f') as the claim (and the codec's own format doc, source line 358)
states, and parsing the dump of the float with hex text "0x1.8p+0" (the
value 1.5) fails instead of returning the float: the round-trip property
is broken on every float value. -/
theorem C1_float_dump_breaks_roundtrip :
    codecDump 1 (PyVal.float "0x1.8p+0") [] =
      some ([105] ++ asciiBytes "0x1.8p+0" ++ [127]) ∧
    (codecDump 1 (PyVal.float "0x1.8p+0") []).bind
      (fun buf => codecParse (buf.length + 1) buf 0) = Option.none :=
  ⟨rfl, rfl⟩

/-- C2: the flag-binding loop (source line 208) passes the stale partition
variable `value` to `try_parse` instead of the occurrence's own value,
so with argv `["--x=5", "--s"]` the flag `x` binds the scalar conversion
of `None` (that is, `None`) rather than 5; when the flag token is the last
`--` token (argv `["--x=5"]`) the stale variable happens to hold the right
value and `x` binds 5 as the claim states. -/
theorem C2_flag_binds_stale_value :
    parse_args specFlagSwitch ["--x=5", "--s"] =
      .ok [("s", PyVal.bool true), ("x", PyVal.none)] ∧
    parse_args specFlagSwitch ["--x=5"] =
      .ok [("s", PyVal.bool false), ("x", PyVal.int 5)] :=
  ⟨rfl, rfl⟩

/-- C4: binding failures are not all recovered.  In named mode a missing
positional flag reaches `raise BadArg(...)` (source line 239) where
`BadArg` is an undefined global — a `NameError` that escapes the
resolver's `except wire.BadArg`; and a named-mode optional given as a flag
reaches the two-argument `try_parse` call (source line 260) — a
`TypeError` that likewise propagates instead of binding the value. -/
theorem C4_binder_failures_escape_resolver :
    wireParseArgs 1 wcmdPosAB [] ["--a=1"] =
      .error (.nameError "name BadArg is not defined") ∧
    wireParseArgs 1 wcmdPosOpt [] ["--a=1", "--c=2"] =
      .error (.typeError "try_parse missing 1 required positional argument: argtype") :=
  ⟨rfl, rfl⟩

/-- C5: `cli.Command.call` behaves as claimed on the first three branches
(executable with matching arity invoked and wrapped, arity mismatch gives
a -1 Response, no executable with empty argv gives the manual with exit
code 0), but in the fourth branch source line 787 reads `.usage` on the
unapplied bound method `self.render` — an `AttributeError` — instead of
returning the usage text with exit code -1. -/
theorem C5_call_dispatch :
    cliCall 1 cliExeNode [] [("a", PyVal.int 7)] =
      .ok ⟨0, PyVal.list [PyVal.int 7], []⟩ ∧
    cliCall 1 cliExeNode [] [] = .ok ⟨-1, PyVal.str "bad options", []⟩ ∧
    cliCall 1 cliGroupNode [] [] =
      .ok ⟨0, PyVal.str (cliRender 1 cliGroupNode).manual, []⟩ ∧
    cliCall 1 cliGroupNode [] [("a", PyVal.int 1)] =
      .error (.attributeError "function object has no attribute usage") :=
  ⟨rfl, rfl, rfl, rfl⟩

/-- C6: in positional mode with positional `[a, b]`, optional `[c]` and
tail `t`, tokens `1 2` bind `a=1, b=2, c=null, t=[]`, and tokens
`1 2 3 4` bind `a=1, b=2, c=3, t=[4]`. -/
theorem C6_positional_mode_binding :
    parse_args specPosOptTail ["1", "2"] =
      .ok [("a", PyVal.int 1), ("b", PyVal.int 2), ("c", PyVal.none),
           ("t", PyVal.list [])] ∧
    parse_args specPosOptTail ["1", "2", "3", "4"] =
      .ok [("a", PyVal.int 1), ("b", PyVal.int 2), ("c", PyVal.int 3),
           ("t", PyVal.list [PyVal.int 4])] :=
  ⟨rfl, rfl⟩

/-- C8: under the declared type `int`, `try_parse` returns an integer
exactly when the token is the canonical base-10 rendering of that integer
(`str(int(token)) == token`), and raises `BadArg` on every other token —
in particular leading zeros, a leading '+', surrounding whitespace and
non-numeric text are rejected. -/
theorem C8_int_parse_canonical :
    (∀ (name tok : String),
      (∃ i : Int, tok = intToStr i ∧
        try_parse name (some tok) (some "int") = .ok (.int i)) ∨
      ((∀ i : Int, tok ≠ intToStr i) ∧
        ∃ msg, try_parse name (some tok) (some "int") = .error (.badArg msg))) ∧
    try_parse "x" (some "05") (some "int") =
      .error (.badArg "x expects an integer, got 05") ∧
    try_parse "x" (some "+5") (some "int") =
      .error (.badArg "x expects an integer, got +5") ∧
    try_parse "x" (some " 5") (some "int") =
      .error (.badArg "x expects an integer, got  5") ∧
    try_parse "x" (some "abc") (some "int") =
      .error (.badArg "x expects an integer, got abc") := by
  refine ⟨?_, rfl, rfl, rfl, rfl⟩
  intro name tok
  have hu : try_parse name (some tok) (some "int") =
      (match pyint tok with
       | some i =>
           if intToStr i = tok then Except.ok (PyVal.int i)
           else Except.error (.badArg (name ++ " expects an integer, got " ++ tok))
       | Option.none =>
           Except.error (.badArg (name ++ " expects an integer, got " ++ tok))) := rfl
  rcases hpy : pyint tok with _ | i
  · simp only [hpy] at hu
    refine Or.inr ⟨?_, ⟨_, hu⟩⟩
    intro i hti
    have h2 := pyint_intToStr i
    rw [← hti, hpy] at h2
    exact Option.noConfusion h2
  · simp only [hpy] at hu
    by_cases heq : intToStr i = tok
    · rw [if_pos heq] at hu
      exact Or.inl ⟨i, heq.symm, hu⟩
    · rw [if_neg heq] at hu
      refine Or.inr ⟨?_, ⟨_, hu⟩⟩
      intro j htj
      have h2 := pyint_intToStr j
      rw [← htj, hpy] at h2
      have hij : i = j := Option.some.inj h2
      exact heq (hij ▸ htj.symm)

/-- C9: under the scalar (or absent) declared type, `try_parse` is total —
it returns a value for every token, never an error — and that value is the
integer round-trip when the token is a canonical decimal integer, else the
float round-trip when the token passes the float round-trip check, else
the raw token unchanged. -/
theorem C9_scalar_parse_total :
    ∀ (name arg : String), ∃ v : PyVal,
      try_parse name (some arg) Option.none = .ok v ∧
      try_parse name (some arg) (some "scalar") = .ok v ∧
      ((∃ i : Int, arg = intToStr i ∧ v = .int i) ∨
       ((∀ i : Int, arg ≠ intToStr i) ∧ pyfloat_roundtrip arg = true ∧ v = .float arg) ∨
       ((∀ i : Int, arg ≠ intToStr i) ∧ pyfloat_roundtrip arg = false ∧ v = .str arg)) := by
  intro name arg
  have hu1 : try_parse name (some arg) Option.none = .ok (scalarConv arg) := rfl
  have hu2 : try_parse name (some arg) (some "scalar") = .ok (scalarConv arg) := rfl
  refine ⟨scalarConv arg, hu1, hu2, ?_⟩
  rcases hpy : pyint arg with _ | i
  · have hne : ∀ i : Int, arg ≠ intToStr i := by
      intro i hti
      have h2 := pyint_intToStr i
      rw [← hti, hpy] at h2
      exact Option.noConfusion h2
    by_cases hf : pyfloat_roundtrip arg
    · exact Or.inr (Or.inl ⟨hne, hf, by simp [scalarConv, scalarFloat, hpy, hf]⟩)
    · refine Or.inr (Or.inr ⟨hne, by simpa using hf, ?_⟩)
      simp [scalarConv, scalarFloat, hpy, hf]
  · by_cases heq : intToStr i = arg
    · exact Or.inl ⟨i, heq.symm, by simp [scalarConv, hpy, heq]⟩
    · have hne : ∀ j : Int, arg ≠ intToStr j := by
        intro j htj
        have h2 := pyint_intToStr j
        rw [← htj, hpy] at h2
        exact heq (Option.some.inj h2 ▸ htj.symm)
      by_cases hf : pyfloat_roundtrip arg
      · exact Or.inr (Or.inl ⟨hne, hf, by simp [scalarConv, scalarFloat, hpy, heq, hf]⟩)
      · refine Or.inr (Or.inr ⟨hne, by simpa using hf, ?_⟩)
        simp [scalarConv, scalarFloat, hpy, heq, hf]

theorem flagsAdd_occs (flags : Flags) (k key : String) (v : Option String) :
    (dictLookup (flagsAdd flags k v) key).getD [] =
      if k = key then (dictLookup flags key).getD [] ++ [v]
      else (dictLookup flags key).getD [] := by
  induction flags with
  | nil =>
    by_cases h : k = key <;> simp [flagsAdd, dictLookup, h]
  | cons hd tl ih =>
    obtain ⟨k0, vs0⟩ := hd
    by_cases h0 : k0 = k
    · subst h0
      by_cases h : k0 = key <;> simp [flagsAdd, dictLookup, h]
    · simp only [flagsAdd, if_neg h0]
      by_cases h1 : k0 = key
      · have hk : ¬(k = key) := fun e => h0 (h1.trans e.symm)
        simp [dictLookup, h1, hk]
      · simp [dictLookup, h1, ih]

theorem flagTokVals_cons (a : String) (rest : List String) (key : String) :
    flagTokVals (a :: rest) key =
      if isFlagTok a && (flagKeyVal a).1 == key
      then (flagKeyVal a).2 :: flagTokVals rest key
      else flagTokVals rest key := by
  by_cases h : isFlagTok a && (flagKeyVal a).1 == key <;>
    simp [flagTokVals, List.filter_cons, h]

theorem partitionGo_occs :
    ∀ (argv opts : List String) (flags : Flags) (lastVal : Option (Option String))
      (key : String),
      (dictLookup (partitionGo argv opts flags lastVal).2.1 key).getD [] =
        (dictLookup flags key).getD [] ++ flagTokVals argv key := by
  intro argv
  induction argv with
  | nil =>
    intro opts flags lastVal key
    simp [partitionGo, flagTokVals]
  | cons a rest ih =>
    intro opts flags lastVal key
    rw [flagTokVals_cons]
    by_cases hf : isFlagTok a
    · simp only [partitionGo, if_pos hf]
      rw [ih, flagsAdd_occs]
      by_cases hk : (flagKeyVal a).1 = key
      · simp [hf, hk]
      · simp [hf, hk]
    · simp only [partitionGo, if_neg hf]
      rw [ih]
      simp [hf]

theorem partitionGo_options :
    ∀ (argv opts : List String) (flags : Flags) (lastVal : Option (Option String)),
      (partitionGo argv opts flags lastVal).1 =
        opts ++ argv.filter (fun t => !isFlagTok t) := by
  intro argv
  induction argv with
  | nil =>
    intro opts flags lastVal
    simp [partitionGo]
  | cons a rest ih =>
    intro opts flags lastVal
    by_cases hf : isFlagTok a
    · simp only [partitionGo, if_pos hf]
      rw [ih]
      simp [hf, List.filter_cons]
    · simp only [partitionGo, if_neg hf]
      rw [ih]
      simp [hf, List.filter_cons]

/-- C10: the partition records every `--`-token as a flag occurrence — the
occurrence list of a key equals, in order, the values of exactly the
tokens whose text between `--` and the first `=` is that key (everything
after the first `=` as value, `None` without `=`); bare tokens become
options in order; `--name=a=b` records value `a=b` under `name`; the bare
token `--` records a valueless occurrence under the empty key; and a `--`
token does not change how later tokens are treated. -/
theorem C10_partition_characterization :
    (∀ (argv : List String) (key : String), flagOccs argv key = flagTokVals argv key) ∧
    (∀ argv : List String,
      (partitionArgv argv).1 = argv.filter (fun t => !isFlagTok t)) ∧
    partitionArgv ["--name=a=b"] = ([], [("name", [some "a=b"])], some (some "a=b")) ∧
    partitionArgv ["--"] = ([], [("", [Option.none])], some Option.none) ∧
    partitionArgv ["--", "x", "--k=v"] =
      (["x"], [("", [Option.none]), ("k", [some "v"])], some (some "v")) := by
  refine ⟨?_, ?_, rfl, rfl, rfl⟩
  · intro argv key
    unfold flagOccs partitionArgv
    rw [partitionGo_occs]
    simp [dictLookup]
  · intro argv
    unfold partitionArgv
    rw [partitionGo_options]
    simp

/-- C3 counterexample: in named mode an unconsumed flag key is ignored,
not rejected.  With positional `[a]` and argv `["--a=1", "--bogus=2"]` the
binder enters named mode (`a` occurs as a flag), never checks the leftover
key `bogus`, and succeeds — the "unknown option flags" check (source lines
272-274) lives only in the positional-mode branch.  (The value 2 bound to
`a` is the stale-variable slip of source line 247.) -/
theorem C3_counterexample_named_mode_ignores_unknown_flag :
    parse_args specPosA ["--a=1", "--bogus=2"] = .ok [("a", PyVal.int 2)] :=
  rfl

/-- C3 amended: in positional mode — when no positional, optional or tail
name occurs among the flag keys left after switch/flag/list binding — any
remaining flag key makes `parse_args` fail with the "unknown option
flags" `BadArg`; in named mode leftover flag keys are ignored. -/
theorem C3_amended_unknown_flags_positional_mode (spec : Argspec)
    (argv : List String) (st1 st2 st3 : BindSt)
    (h1 : bindSwitches spec.switches
      ⟨(partitionArgv argv).2.1, [], (partitionArgv argv).2.2⟩ = .ok st1)
    (h2 : bindFlags spec.argtypes spec.flags st1 = .ok st2)
    (h3 : bindLists spec.argtypes spec.lists st2 = .ok st3)
    (h4 : namedArgs spec st3.flags = false)
    (h5 : st3.flags ≠ []) :
    parse_args spec argv =
      .error (.badArg ("unknown option flags: --" ++
        String.join (st3.flags.map (fun p => p.1)))) := by
  simp only [parse_args, parseArgsCore, h1, h2, h3, parseArgsTail, h4,
    Bool.false_eq_true, if_false]

/-- Witness for the amended C3 at a concrete input: one declared switch
`s`, argv `["--bogus=1"]`. -/
theorem C3_amended_witness :
    parse_args specSwitchOnly ["--bogus=1"] =
      .error (.badArg ("unknown option flags: --" ++
        String.join (([("bogus", [some "1"])] : Flags).map (fun p => p.1)))) :=
  C3_amended_unknown_flags_positional_mode specSwitchOnly ["--bogus=1"]
    ⟨[("bogus", [some "1"])], [("s", PyVal.bool false)], some (some "1")⟩
    ⟨[("bogus", [some "1"])], [("s", PyVal.bool false)], some (some "1")⟩
    ⟨[("bogus", [some "1"])], [("s", PyVal.bool false)], some (some "1")⟩
    rfl rfl rfl rfl (by decide)

/-- Errors of the boolean branch of `try_parse` are `BadArg`. -/
theorem try_parse_boolean_err (n : String) (arg : Option String) (e : PyErr)
    (h : try_parse n arg (some "boolean") = .error e) : ∃ msg, e = .badArg msg := by
  have hu : try_parse n arg (some "boolean") =
      (if arg = some "true" then .ok (.bool true)
       else if arg = some "false" then .ok (.bool false)
       else .error (.badArg (n ++ " expects either true or false"))) := rfl
  rw [hu] at h
  by_cases h1 : arg = some "true"
  · rw [if_pos h1] at h
    exact absurd h (by simp)
  · rw [if_neg h1] at h
    by_cases h2 : arg = some "false"
    · rw [if_pos h2] at h
      exact absurd h (by simp)
    · rw [if_neg h2] at h
      exact ⟨_, (Except.error.inj h).symm⟩

theorem chainSteps_preserves_args
    (step : String → BindSt → Except PyErr BindSt)
    (hstep : ∀ n st1 st2, step n st1 = .ok st2 → ∀ key, key ≠ n →
      dictLookup st2.args key = dictLookup st1.args key) :
    ∀ (names : List String) (st st' : BindSt) (key : String),
      key ∉ names → chainSteps step names st = .ok st' →
      dictLookup st'.args key = dictLookup st.args key := by
  intro names
  induction names with
  | nil =>
    intro st st' key _ h
    cases h
    rfl
  | cons n rest ih =>
    intro st st' key hmem h
    have hne : key ≠ n := by
      intro e
      exact hmem (by simp [e])
    have hrest : key ∉ rest := by
      intro e
      exact hmem (by simp [e])
    simp only [chainSteps] at h
    rcases hs : step n st with e | st2
    · rw [hs] at h
      exact absurd h (by simp)
    · simp only [hs] at h
      rw [ih st2 st' key hrest h]
      exact hstep n st st2 hs key hne

theorem chainSteps_preserves_flags
    (step : String → BindSt → Except PyErr BindSt)
    (hstep : ∀ n st1 st2, step n st1 = .ok st2 → ∀ key, key ≠ n →
      dictLookup st2.flags key = dictLookup st1.flags key) :
    ∀ (names : List String) (st st' : BindSt) (key : String),
      key ∉ names → chainSteps step names st = .ok st' →
      dictLookup st'.flags key = dictLookup st.flags key := by
  intro names
  induction names with
  | nil =>
    intro st st' key _ h
    cases h
    rfl
  | cons n rest ih =>
    intro st st' key hmem h
    have hne : key ≠ n := by
      intro e
      exact hmem (by simp [e])
    have hrest : key ∉ rest := by
      intro e
      exact hmem (by simp [e])
    simp only [chainSteps] at h
    rcases hs : step n st with e | st2
    · rw [hs] at h
      exact absurd h (by simp)
    · simp only [hs] at h
      rw [ih st2 st' key hrest h]
      exact hstep n st st2 hs key hne

/-- When the loop reaches `name`, the step ran on a state whose flag entry
for `name` is the original one, and its output fixes the final binding. -/
theorem chainSteps_char
    (step : String → BindSt → Except PyErr BindSt)
    (hargs : ∀ n st1 st2, step n st1 = .ok st2 → ∀ key, key ≠ n →
      dictLookup st2.args key = dictLookup st1.args key)
    (hflags : ∀ n st1 st2, step n st1 = .ok st2 → ∀ key, key ≠ n →
      dictLookup st2.flags key = dictLookup st1.flags key) :
    ∀ (names : List String) (st st' : BindSt) (name : String),
      names.Nodup → name ∈ names → chainSteps step names st = .ok st' →
      ∃ stMid stOut, step name stMid = .ok stOut ∧
        dictLookup stMid.flags name = dictLookup st.flags name ∧
        dictLookup st'.args name = dictLookup stOut.args name := by
  intro names
  induction names with
  | nil =>
    intro st st' name _ hmem
    exact absurd hmem (by simp)
  | cons n rest ih =>
    intro st st' name hnd hmem h
    simp only [chainSteps] at h
    rcases hs : step n st with e | st2
    · rw [hs] at h
      exact absurd h (by simp)
    · simp only [hs] at h
      rcases List.mem_cons.mp hmem with heq | hmem2
      · subst heq
        have hnotin : name ∉ rest := (List.nodup_cons.mp hnd).1
        exact ⟨st, st2, hs, rfl,
          chainSteps_preserves_args step hargs rest st2 st' name hnotin h⟩
      · have hne : name ≠ n := by
          intro e
          exact (List.nodup_cons.mp hnd).1 (e ▸ hmem2)
        obtain ⟨stMid, stOut, h1, h2, h3⟩ :=
          ih st2 st' name (List.nodup_cons.mp hnd).2 hmem2 h
        exact ⟨stMid, stOut, h1, h2.trans (hflags n st st2 hs name hne), h3⟩

/-- If the step for a present `name` necessarily fails (as a function of
its unchanged flag entry) and every step error is a `BadArg`, the whole
loop fails with a `BadArg`. -/
theorem chainSteps_badarg
    (step : String → BindSt → Except PyErr BindSt)
    (vs : List (Option String))
    (hflags : ∀ n st1 st2, step n st1 = .ok st2 → ∀ key, key ≠ n →
      dictLookup st2.flags key = dictLookup st1.flags key)
    (herr : ∀ n st1 e, step n st1 = .error e → ∃ msg, e = .badArg msg)
    (name : String)
    (hfail : ∀ st1, dictLookup st1.flags name = some vs →
      ∃ e, step name st1 = .error e) :
    ∀ (names : List String) (st : BindSt),
      name ∈ names → dictLookup st.flags name = some vs →
      ∃ msg, chainSteps step names st = .error (.badArg msg) := by
  intro names
  induction names with
  | nil =>
    intro st hmem
    exact absurd hmem (by simp)
  | cons n rest ih =>
    intro st hmem hvs
    simp only [chainSteps]
    by_cases heq : n = name
    · subst heq
      obtain ⟨e, he⟩ := hfail st hvs
      obtain ⟨msg, hmsg⟩ := herr n st e he
      exact ⟨msg, by rw [he, hmsg]⟩
    · rcases hs : step n st with e | st2
      · obtain ⟨msg, hmsg⟩ := herr n st e hs
        exact ⟨msg, by rw [hmsg]⟩
      · have hmem2 : name ∈ rest := by
          rcases List.mem_cons.mp hmem with h1 | h1
          · exact absurd h1.symm heq
          · exact h1
        have hvs2 : dictLookup st2.flags name = some vs := by
          rw [hflags n st st2 hs name (fun e => heq e.symm)]
          exact hvs
        obtain ⟨msg, hmsg⟩ := ih st2 hmem2 hvs2
        exact ⟨msg, by simp only [hmsg]⟩

theorem bindSwitchStep_preserves_args (n : String) (st st2 : BindSt)
    (h : bindSwitchStep n st = .ok st2) (key : String) (hne : key ≠ n) :
    dictLookup st2.args key = dictLookup st.args key := by
  simp only [bindSwitchStep] at h
  repeat' split at h
  all_goals cases h
  all_goals simp [dictLookup_dictInsert_ne, Ne.symm hne]

theorem bindSwitchStep_preserves_flags (n : String) (st st2 : BindSt)
    (h : bindSwitchStep n st = .ok st2) (key : String) (hne : key ≠ n) :
    dictLookup st2.flags key = dictLookup st.flags key := by
  simp only [bindSwitchStep] at h
  repeat' split at h
  all_goals cases h
  all_goals simp [dictLookup_dictPop_ne, Ne.symm hne]

theorem bindSwitchStep_err_badarg (n : String) (st : BindSt) (e : PyErr)
    (h : bindSwitchStep n st = .error e) : ∃ msg, e = .badArg msg := by
  simp only [bindSwitchStep] at h
  repeat' split at h
  all_goals cases h
  all_goals first
    | exact ⟨_, rfl⟩
    | (rename_i heq
       exact try_parse_boolean_err _ _ _ heq)

/-- The boolean branch of `try_parse` rejects everything but the literal
tokens `true` and `false`. -/
theorem try_parse_boolean_reject (n v : String) (hv1 : v ≠ "true") (hv2 : v ≠ "false") :
    try_parse n (some v) (some "boolean") =
      .error (.badArg (n ++ " expects either true or false")) := by
  have hu : try_parse n (some v) (some "boolean") =
      (if (some v : Option String) = some "true" then .ok (.bool true)
       else if (some v : Option String) = some "false" then .ok (.bool false)
       else .error (.badArg (n ++ " expects either true or false"))) := rfl
  rw [hu, if_neg (by simpa using hv1), if_neg (by simpa using hv2)]

/-- What one switch step binds, as a function of the flag entry it sees. -/
theorem bindSwitchStep_char (n : String) (st st2 : BindSt)
    (h : bindSwitchStep n st = .ok st2) :
    (dictLookup st.flags n = Option.none → dictLookup st2.args n = some (.bool false)) ∧
    (dictLookup st.flags n = some [Option.none] →
      dictLookup st2.args n = some (.bool true)) ∧
    (∀ v, dictLookup st.flags n = some [some v] →
      (v = "true" ∨ v = "false") ∧ dictLookup st2.args n = some (.bool (v == "true"))) := by
  refine ⟨?_, ?_, ?_⟩
  · intro hl
    simp only [bindSwitchStep, hl] at h
    cases h
    simp [dictLookup_dictInsert_self]
  · intro hl
    simp only [bindSwitchStep, hl] at h
    cases h
    simp [dictLookup_dictInsert_self]
  · intro v hl
    by_cases hv1 : v = "true"
    · subst hv1
      have ht : try_parse n (some "true") (some "boolean") = .ok (.bool true) := rfl
      simp only [bindSwitchStep, hl, ht] at h
      cases h
      exact ⟨Or.inl rfl, by simp [dictLookup_dictInsert_self]⟩
    · by_cases hv2 : v = "false"
      · subst hv2
        have ht : try_parse n (some "false") (some "boolean") = .ok (.bool false) := rfl
        simp only [bindSwitchStep, hl, ht] at h
        cases h
        refine ⟨Or.inr rfl, ?_⟩
        have hb : ("false" == "true") = false := by decide
        simp [dictLookup_dictInsert_self, hb]
      · have ht := try_parse_boolean_reject n v hv1 hv2
        simp only [bindSwitchStep, hl, ht] at h
        cases h

/-- A bad occurrence list (empty, more than one, or a single non-boolean
value) makes the switch step raise. -/
theorem bindSwitchStep_fail (n : String) (st : BindSt) (vs : List (Option String))
    (hl : dictLookup st.flags n = some vs)
    (hbad : vs = [] ∨ 2 ≤ vs.length ∨
      ∃ v, vs = [some v] ∧ v ≠ "true" ∧ v ≠ "false") :
    ∃ e, bindSwitchStep n st = .error e := by
  rcases hbad with hb | hb | ⟨v, hb, hv1, hv2⟩
  · subst hb
    exact ⟨.badArg ("value given for switch flag " ++ n), by simp [bindSwitchStep, hl]⟩
  · rcases vs with _ | ⟨v0, vrest⟩
    · simp at hb
    · rcases vrest with _ | ⟨v1, vrest2⟩
      · simp at hb
      · exact ⟨.badArg ("duplicate switch flag for: " ++ n),
          by simp [bindSwitchStep, hl]⟩
  · subst hb
    have ht := try_parse_boolean_reject n v hv1 hv2
    exact ⟨.badArg (n ++ " expects either true or false"),
      by simp [bindSwitchStep, hl, ht]⟩

theorem bindFlagStep_preserves_args (argtypes : List (String × String)) (n : String)
    (st st2 : BindSt) (h : bindFlagStep argtypes n st = .ok st2)
    (key : String) (hne : key ≠ n) :
    dictLookup st2.args key = dictLookup st.args key := by
  simp only [bindFlagStep] at h
  repeat' split at h
  all_goals cases h
  all_goals simp [dictLookup_dictInsert_ne, Ne.symm hne]

theorem bindListStep_preserves_args (argtypes : List (String × String)) (n : String)
    (st st2 : BindSt) (h : bindListStep argtypes n st = .ok st2)
    (key : String) (hne : key ≠ n) :
    dictLookup st2.args key = dictLookup st.args key := by
  simp only [bindListStep] at h
  repeat' split at h
  all_goals cases h
  all_goals simp [dictLookup_dictInsert_ne, Ne.symm hne]

theorem bindNamedPositionalStep_preserves_args (argtypes : List (String × String))
    (n : String) (st st2 : BindSt)
    (h : bindNamedPositionalStep argtypes n st = .ok st2)
    (key : String) (hne : key ≠ n) :
    dictLookup st2.args key = dictLookup st.args key := by
  simp only [bindNamedPositionalStep] at h
  repeat' split at h
  all_goals cases h
  all_goals simp [dictLookup_dictInsert_ne, Ne.symm hne]

theorem bindNamedOptionalStep_preserves_args (argtypes : List (String × String))
    (n : String) (st st2 : BindSt)
    (h : bindNamedOptionalStep argtypes n st = .ok st2)
    (key : String) (hne : key ≠ n) :
    dictLookup st2.args key = dictLookup st.args key := by
  simp only [bindNamedOptionalStep] at h
  repeat' split at h
  all_goals cases h
  all_goals simp [dictLookup_dictInsert_ne, Ne.symm hne]

theorem bindNamedTail_preserves_args (argtypes : List (String × String))
    (tail : Option String) (st st2 : BindSt)
    (h : bindNamedTail argtypes tail st = .ok st2)
    (key : String) (hne : ∀ t, tail = some t → key ≠ t) :
    dictLookup st2.args key = dictLookup st.args key := by
  cases tail with
  | none =>
    cases h
    rfl
  | some name =>
    have hkey : key ≠ name := hne name rfl
    simp only [bindNamedTail] at h
    repeat' split at h
    all_goals cases h
    all_goals simp [dictLookup_dictInsert_ne, Ne.symm hkey]

theorem chainOptSteps_preserves_args
    (step : String → List String → Args → Except PyErr (List String × Args))
    (hstep : ∀ n options args p, step n options args = .ok p → ∀ key, key ≠ n →
      dictLookup p.2 key = dictLookup args key) :
    ∀ (names options : List String) (args : Args) (p : List String × Args)
      (key : String), key ∉ names →
      chainOptSteps step names options args = .ok p →
      dictLookup p.2 key = dictLookup args key := by
  intro names
  induction names with
  | nil =>
    intro options args p key _ h
    cases h
    rfl
  | cons n rest ih =>
    intro options args p key hmem h
    have hne : key ≠ n := by
      intro e
      exact hmem (by simp [e])
    have hrest : key ∉ rest := by
      intro e
      exact hmem (by simp [e])
    simp only [chainOptSteps] at h
    rcases hs : step n options args with e | q
    · rw [hs] at h
      exact absurd h (by simp)
    · simp only [hs] at h
      rw [ih q.1 q.2 p key hrest h]
      exact hstep n options args q hs key hne

theorem bindPositionalStep_preserves_args (argtypes : List (String × String))
    (n : String) (options : List String) (args : Args) (p : List String × Args)
    (h : bindPositionalStep argtypes n options args = .ok p)
    (key : String) (hne : key ≠ n) :
    dictLookup p.2 key = dictLookup args key := by
  simp only [bindPositionalStep] at h
  repeat' split at h
  all_goals cases h
  all_goals simp [dictLookup_dictInsert_ne, Ne.symm hne]

theorem bindOptionalStep_preserves_args (argtypes : List (String × String))
    (n : String) (options : List String) (args : Args) (p : List String × Args)
    (h : bindOptionalStep argtypes n options args = .ok p)
    (key : String) (hne : key ≠ n) :
    dictLookup p.2 key = dictLookup args key := by
  simp only [bindOptionalStep] at h
  repeat' split at h
  all_goals cases h
  all_goals simp [dictLookup_dictInsert_ne, Ne.symm hne]

theorem bindTail_preserves_args (argtypes : List (String × String))
    (tail : Option String) (options : List String) (args : Args)
    (p : List String × Args) (h : bindTail argtypes tail options args = .ok p)
    (key : String) (hne : ∀ t, tail = some t → key ≠ t) :
    dictLookup p.2 key = dictLookup args key := by
  cases tail with
  | none =>
    cases h
    rfl
  | some name =>
    have hkey : key ≠ name := hne name rfl
    simp only [bindTail] at h
    repeat' split at h
    all_goals cases h
    all_goals simp [dictLookup_dictInsert_ne, Ne.symm hkey]

theorem parse_args_ok_elim (spec : Argspec) (argv : List String) (args : Args)
    (h : parse_args spec argv = .ok args) :
    ∃ st1 st2 st3,
      bindSwitches spec.switches
        ⟨(partitionArgv argv).2.1, [], (partitionArgv argv).2.2⟩ = .ok st1 ∧
      bindFlags spec.argtypes spec.flags st1 = .ok st2 ∧
      bindLists spec.argtypes spec.lists st2 = .ok st3 ∧
      parseArgsTail spec (partitionArgv argv).1 st3 = .ok args := by
  simp only [parse_args, parseArgsCore] at h
  rcases h1 : bindSwitches spec.switches
      ⟨(partitionArgv argv).2.1, [], (partitionArgv argv).2.2⟩ with e | st1
  · rw [h1] at h
    exact absurd h (by simp)
  · simp only [h1] at h
    rcases h2 : bindFlags spec.argtypes spec.flags st1 with e | st2
    · rw [h2] at h
      exact absurd h (by simp)
    · simp only [h2] at h
      rcases h3 : bindLists spec.argtypes spec.lists st2 with e | st3
      · rw [h3] at h
        exact absurd h (by simp)
      · simp only [h3] at h
        exact ⟨st1, st2, st3, rfl, h2, h3, h⟩

theorem parse_args_switches_error (spec : Argspec) (argv : List String) (e : PyErr)
    (h : bindSwitches spec.switches
      ⟨(partitionArgv argv).2.1, [], (partitionArgv argv).2.2⟩ = .error e) :
    parse_args spec argv = .error e := by
  simp only [parse_args, parseArgsCore, h]

/-- Any name outside the positional, optional and tail categories keeps
its binding through the mode branch and residual checks. -/
theorem parseArgsTail_ok_args (spec : Argspec) (options : List String) (st3 : BindSt)
    (args : Args) (key : String)
    (h : parseArgsTail spec options st3 = .ok args)
    (hpos : key ∉ spec.positional) (hopt : key ∉ spec.optional)
    (htail : ∀ t, spec.tail = some t → key ≠ t) :
    dictLookup args key = dictLookup st3.args key := by
  simp only [parseArgsTail] at h
  cases hn : namedArgs spec st3.flags
  · simp only [hn, Bool.false_eq_true, if_false] at h
    rcases hfl : st3.flags with _ | ⟨f0, frest⟩
    · simp only [hfl] at h
      rcases h1 : bindPositional spec.argtypes spec.positional options st3.args
          with e | p1
      · rw [h1] at h
        exact absurd h (by simp)
      · simp only [h1] at h
        rcases h2 : bindOptional spec.argtypes spec.optional p1.1 p1.2 with e | p2
        · rw [h2] at h
          exact absurd h (by simp)
        · simp only [h2] at h
          rcases h3 : bindTail spec.argtypes spec.tail p2.1 p2.2 with e | p3
          · rw [h3] at h
            exact absurd h (by simp)
          · simp only [h3] at h
            rcases hres : p3.1 with _ | ⟨r0, rrest⟩
            · simp only [hres] at h
              have hargs : args = p3.2 := (Except.ok.inj h).symm
              subst hargs
              rw [bindTail_preserves_args spec.argtypes spec.tail p2.1 p2.2 p3 h3
                    key htail]
              rw [chainOptSteps_preserves_args _
                    (fun n o a p hs k hk =>
                      bindOptionalStep_preserves_args spec.argtypes n o a p hs k hk)
                    spec.optional p1.1 p1.2 p2 key hopt h2]
              rw [chainOptSteps_preserves_args _
                    (fun n o a p hs k hk =>
                      bindPositionalStep_preserves_args spec.argtypes n o a p hs k hk)
                    spec.positional options st3.args p1 key hpos h1]
            · simp only [hres] at h
              exact absurd h (by simp)
    · simp only [hfl] at h
      exact absurd h (by simp)
  · simp only [hn, if_true] at h
    rcases h1 : bindNamedPositional spec.argtypes spec.positional st3 with e | st4
    · rw [h1] at h
      exact absurd h (by simp)
    · simp only [h1] at h
      rcases h2 : bindNamedOptional spec.argtypes spec.optional st4 with e | st5
      · rw [h2] at h
        exact absurd h (by simp)
      · simp only [h2] at h
        rcases h3 : bindNamedTail spec.argtypes spec.tail st5 with e | st6
        · rw [h3] at h
          exact absurd h (by simp)
        · simp only [h3] at h
          rcases hopts : options with _ | ⟨o0, orest⟩
          · simp only [hopts] at h
            have hargs : args = st6.args := (Except.ok.inj h).symm
            subst hargs
            rw [bindNamedTail_preserves_args spec.argtypes spec.tail st5 st6 h3
                  key htail]
            rw [chainSteps_preserves_args _
                  (fun n s1 s2 hs k hk =>
                    bindNamedOptionalStep_preserves_args spec.argtypes n s1 s2 hs k hk)
                  spec.optional st4 st5 key hopt h2]
            rw [chainSteps_preserves_args _
                  (fun n s1 s2 hs k hk =>
                    bindNamedPositionalStep_preserves_args spec.argtypes n s1 s2 hs k hk)
                  spec.positional st3 st4 key hpos h1]
          · simp only [hopts] at h
            exact absurd h (by simp)

theorem dictLookup_mem {α : Type} (d : List (String × α)) (key : String) (v : α)
    (h : dictLookup d key = some v) : (key, v) ∈ d := by
  induction d with
  | nil => exact absurd h (by simp [dictLookup])
  | cons hd tl ih =>
    obtain ⟨k0, v0⟩ := hd
    by_cases hk : k0 = key
    · subst hk
      simp only [dictLookup, if_pos rfl] at h
      cases h
      simp
    · simp only [dictLookup, if_neg hk] at h
      exact List.mem_cons_of_mem _ (ih h)

theorem flagsAdd_entries_ne_nil (flags : Flags) (k : String) (v : Option String)
    (hinv : ∀ p ∈ flags, p.2 ≠ []) :
    ∀ p ∈ flagsAdd flags k v, p.2 ≠ [] := by
  induction flags with
  | nil =>
    intro p hp
    simp only [flagsAdd, List.mem_singleton] at hp
    subst hp
    simp
  | cons hd tl ih =>
    obtain ⟨k0, vs0⟩ := hd
    intro p hp
    by_cases h0 : k0 = k
    · subst h0
      simp only [flagsAdd, if_pos rfl, if_true, eq_self_iff_true, List.mem_cons] at hp
      rcases hp with hp | hp
      · subst hp
        simp
      · exact hinv p (List.mem_cons_of_mem _ hp)
    · simp only [flagsAdd, if_neg h0, List.mem_cons] at hp
      rcases hp with hp | hp
      · subst hp
        exact hinv (k0, vs0) (by simp)
      · exact ih (fun q hq => hinv q (List.mem_cons_of_mem _ hq)) p hp

theorem partitionGo_entries_ne_nil :
    ∀ (argv opts : List String) (flags : Flags) (lastVal : Option (Option String)),
      (∀ p ∈ flags, p.2 ≠ []) →
      ∀ p ∈ (partitionGo argv opts flags lastVal).2.1, p.2 ≠ [] := by
  intro argv
  induction argv with
  | nil =>
    intro opts flags lastVal hinv
    simpa [partitionGo] using hinv
  | cons a rest ih =>
    intro opts flags lastVal hinv
    by_cases hf : isFlagTok a
    · simp only [partitionGo, if_pos hf]
      exact ih _ _ _ (flagsAdd_entries_ne_nil flags _ _ hinv)
    · simp only [partitionGo, if_neg hf]
      exact ih _ _ _ hinv

/-- The partition never records an empty occurrence list. -/
theorem flagOccs_cases (argv : List String) (key : String) :
    (flagOccs argv key = [] ∧ dictLookup (partitionArgv argv).2.1 key = Option.none) ∨
    (dictLookup (partitionArgv argv).2.1 key = some (flagOccs argv key) ∧
      flagOccs argv key ≠ []) := by
  rcases hl : dictLookup (partitionArgv argv).2.1 key with _ | vs
  · exact Or.inl ⟨by simp [flagOccs, hl], rfl⟩
  · have hmem := dictLookup_mem _ _ _ hl
    have hne : vs ≠ [] :=
      partitionGo_entries_ne_nil argv [] [] Option.none (by simp) (key, vs) hmem
    exact Or.inr ⟨by simp [flagOccs, hl], by simpa [flagOccs, hl] using hne⟩

/-- A switch name of a well-formed Argspec occurs once among the switches
and in no other category. -/
theorem specWF_switch_facts (spec : Argspec) (name : String)
    (hwf : SpecWF spec) (hmem : name ∈ spec.switches) :
    spec.switches.Nodup ∧ name ∉ spec.flags ∧ name ∉ spec.lists ∧
      name ∉ spec.positional ∧ name ∉ spec.optional ∧
      (∀ t, spec.tail = some t → name ≠ t) := by
  unfold SpecWF Argspec.names at hwf
  have hmem1 : name ∈ spec.switches ++ spec.flags := List.mem_append_left _ hmem
  have hmem2 : name ∈ spec.switches ++ spec.flags ++ spec.lists :=
    List.mem_append_left _ hmem1
  have hmem3 : name ∈ spec.switches ++ spec.flags ++ spec.lists ++ spec.positional :=
    List.mem_append_left _ hmem2
  have hmem4 : name ∈ spec.switches ++ spec.flags ++ spec.lists ++ spec.positional ++
      spec.optional := List.mem_append_left _ hmem3
  have h5 := List.disjoint_of_nodup_append hwf hmem4
  have hwf2 := hwf.of_append_left
  have h4 : name ∉ spec.optional := List.disjoint_of_nodup_append hwf2 hmem3
  have hwf3 := hwf2.of_append_left
  have h3 : name ∉ spec.positional := List.disjoint_of_nodup_append hwf3 hmem2
  have hwf4 := hwf3.of_append_left
  have h2 : name ∉ spec.lists := List.disjoint_of_nodup_append hwf4 hmem1
  have hwf5 := hwf4.of_append_left
  have h1 : name ∉ spec.flags := List.disjoint_of_nodup_append hwf5 hmem
  have hnd : spec.switches.Nodup := hwf5.of_append_left
  refine ⟨hnd, h1, h2, h3, h4, ?_⟩
  intro t ht he
  subst he
  rw [ht] at h5
  simp at h5

/-- C7: for a well-formed Argspec and a declared switch name: when
`parse_args` succeeds, no occurrence in argv binds the name to `false`, a
single valueless occurrence binds `true`, and a single valued occurrence
binds the boolean value of the token (which must be the literal `true` or
`false`); a single occurrence with any other value, or more than one
occurrence, makes `parse_args` raise a `BadArg`. -/
theorem C7_switch_binding :
    ∀ (spec : Argspec) (argv : List String) (name : String),
      SpecWF spec → name ∈ spec.switches →
      ((∀ args, parse_args spec argv = .ok args →
        (flagOccs argv name = [] → dictLookup args name = some (.bool false)) ∧
        (flagOccs argv name = [Option.none] →
          dictLookup args name = some (.bool true)) ∧
        (∀ v, flagOccs argv name = [some v] →
          (v = "true" ∨ v = "false") ∧
          dictLookup args name = some (.bool (v == "true")))) ∧
       (((∃ v, flagOccs argv name = [some v] ∧ v ≠ "true" ∧ v ≠ "false") ∨
          2 ≤ (flagOccs argv name).length) →
        ∃ msg, parse_args spec argv = .error (.badArg msg))) := by
  intro spec argv name hwf hmem
  obtain ⟨hnd, hfl, hls, hpos, hopt, htl⟩ := specWF_switch_facts spec name hwf hmem
  constructor
  · intro args hok
    obtain ⟨st1, st2, st3, h1, h2, h3, h4⟩ := parse_args_ok_elim spec argv args hok
    obtain ⟨stMid, stOut, hstep, hflagsEq, hargsEq⟩ :=
      chainSteps_char bindSwitchStep
        (fun n s1 s2 hs k hk => bindSwitchStep_preserves_args n s1 s2 hs k hk)
        (fun n s1 s2 hs k hk => bindSwitchStep_preserves_flags n s1 s2 hs k hk)
        spec.switches ⟨(partitionArgv argv).2.1, [], (partitionArgv argv).2.2⟩
        st1 name hnd hmem h1
    obtain ⟨hcf, hct, hcv⟩ := bindSwitchStep_char name stMid stOut hstep
    have hlift : dictLookup args name = dictLookup stOut.args name := by
      rw [parseArgsTail_ok_args spec (partitionArgv argv).1 st3 args name h4 hpos
            hopt htl]
      rw [chainSteps_preserves_args _
            (fun n s1 s2 hs k hk =>
              bindListStep_preserves_args spec.argtypes n s1 s2 hs k hk)
            spec.lists st2 st3 name hls h3]
      rw [chainSteps_preserves_args _
            (fun n s1 s2 hs k hk =>
              bindFlagStep_preserves_args spec.argtypes n s1 s2 hs k hk)
            spec.flags st1 st2 name hfl h2]
      exact hargsEq
    refine ⟨?_, ?_, ?_⟩
    · intro hocc
      rcases flagOccs_cases argv name with ⟨_, hlook⟩ | ⟨hlook, hne⟩
      · rw [hlift]
        exact hcf (by rw [hflagsEq]; exact hlook)
      · exact absurd hocc hne
    · intro hocc
      rcases flagOccs_cases argv name with ⟨hemp, _⟩ | ⟨hlook, _⟩
      · rw [hemp] at hocc
        exact absurd hocc.symm (by simp)
      · rw [hocc] at hlook
        rw [hlift]
        exact hct (by rw [hflagsEq]; exact hlook)
    · intro v hocc
      rcases flagOccs_cases argv name with ⟨hemp, _⟩ | ⟨hlook, _⟩
      · rw [hemp] at hocc
        exact absurd hocc.symm (by simp)
      · rw [hocc] at hlook
        obtain ⟨hv, hbind⟩ := hcv v (by rw [hflagsEq]; exact hlook)
        exact ⟨hv, by rw [hlift]; exact hbind⟩
  · intro hbad
    have hne : flagOccs argv name ≠ [] := by
      rcases hbad with ⟨v, hv, _, _⟩ | hlen
      · rw [hv]
        simp
      · intro he
        rw [he] at hlen
        simp at hlen
    rcases flagOccs_cases argv name with ⟨hemp, _⟩ | ⟨hlook, _⟩
    · exact absurd hemp hne
    · have hbad2 : flagOccs argv name = [] ∨ 2 ≤ (flagOccs argv name).length ∨
          ∃ v, flagOccs argv name = [some v] ∧ v ≠ "true" ∧ v ≠ "false" := by
        rcases hbad with ⟨v, hv, hv1, hv2⟩ | hlen
        · exact Or.inr (Or.inr ⟨v, hv, hv1, hv2⟩)
        · exact Or.inr (Or.inl hlen)
      obtain ⟨msg, hmsg⟩ :=
        chainSteps_badarg bindSwitchStep (flagOccs argv name)
          (fun n s1 s2 hs k hk => bindSwitchStep_preserves_flags n s1 s2 hs k hk)
          (fun n s1 e he => bindSwitchStep_err_badarg n s1 e he)
          name
          (fun s1 hl => bindSwitchStep_fail name s1 (flagOccs argv name) hl hbad2)
          spec.switches ⟨(partitionArgv argv).2.1, [], (partitionArgv argv).2.2⟩
          hmem hlook
      exact ⟨msg, parse_args_switches_error spec argv _ hmsg⟩

/-- Witness for C7 at a concrete input: the switch `s` with a single
valueless occurrence binds `true`. -/
theorem C7_switch_binding_witness :
    dictLookup [("s", PyVal.bool true)] "s" = some (PyVal.bool true) :=
  ((C7_switch_binding specSwitchOnly ["--s"] "s" (by unfold SpecWF; decide)
    (by decide)).1 [("s", PyVal.bool true)] rfl).2.1 rfl

end Textfree86
